import Mathlib

/-!
Verification development for the `job_redirector` repository: a Redis-backed
job queue with worker processes (`worker.py`, `main.py`), an operation
dispatcher (`job_runner.py`) and two executor adapters
(`yandex_redirector.py`, `gis_redirector.py`).

The shallow embedding models:
  * Python values flowing through the redirectors (`PyVal`), with Python
    truthiness and `dict.get` semantics;
  * the Redis storage layer as a state of string lists (queues, ledgers,
    dead-letter), string hashes (job records) and string sets, together
    with the primitive commands the code issues (`BRPOP`, `LPUSH`,
    `RPOPLPUSH`, `LREM`, `HSET`, `SADD`); each primitive is one atomic
    storage-layer action;
  * the worker's functions: `recover_interrupted_jobs`, `execute_job`,
    `get_allowed_queues`, the queue-name inference, one iteration of
    `main_loop`, and the dead-letter exception handler.

The site-specific scrapers are external collaborators: they are parameters
(`YandexScraper`, `GisScraper`) whose calls either return a value, raise
`CaptchaRequired` (Yandex only) or raise a generic exception.
-/

/-- Model of the Python values produced and inspected by the redirectors:
`None`, booleans, integers, strings, lists and string-keyed dicts. -/
inductive PyVal where
  | none : PyVal
  | bool : Bool → PyVal
  | int : Int → PyVal
  | str : String → PyVal
  | list : List PyVal → PyVal
  | dict : List (String × PyVal) → PyVal

/-- Python truthiness: `None`, `False`, `0`, `""`, `[]` and `{}` are falsy. -/
def pyTruthy : PyVal → Bool
  | .none => false
  | .bool b => b
  | .int n => n != 0
  | .str s => s ≠ ""
  | .list xs => !xs.isEmpty
  | .dict kvs => !kvs.isEmpty

/-- `d.get(k)` on a Python dict: first binding of `k`, defaulting to `None`.
On non-dict values the code never calls `.get`; we return `None`. -/
def pyGet (v : PyVal) (k : String) : PyVal :=
  match v with
  | .dict kvs => (kvs.lookup k).getD .none
  | _ => .none

/-- `d.get(k, default)` on a Python dict. -/
def pyGetD (v : PyVal) (k : String) (dflt : PyVal) : PyVal :=
  match v with
  | .dict kvs => (kvs.lookup k).getD dflt
  | _ => dflt

/-- `v == "s"` in Python where the right operand is a string: true exactly
when `v` is the same string (cross-type `==` is `False`). -/
def pyEqStr (v : PyVal) (s : String) : Bool :=
  match v with
  | .str t => t == s
  | _ => false

/-- `v is None` in Python. -/
def pyIsNone : PyVal → Bool
  | .none => true
  | _ => false

/-- Whether a Python dict value has a binding for key `k`. -/
def pyHasKey (v : PyVal) (k : String) : Bool :=
  match v with
  | .dict kvs => kvs.any (fun kv => kv.1 == k)
  | _ => false

mutual
/-- Model of `json.dumps` as used for `result_data` serialization.  The
protocol never re-reads the serialized text, so only totality matters. -/
def jsonDumps : PyVal → String
  | .none => "null"
  | .bool b => if b then "true" else "false"
  | .int n => toString n
  | .str s => "\"" ++ s ++ "\""
  | .list xs => "[" ++ jsonDumpsList xs ++ "]"
  | .dict kvs => "\x7b" ++ jsonDumpsPairs kvs ++ "\x7d"

/-- Serialize a list of values, comma separated. -/
def jsonDumpsList : List PyVal → String
  | [] => ""
  | [x] => jsonDumps x
  | x :: xs => jsonDumps x ++ ", " ++ jsonDumpsList xs

/-- Serialize dict entries, comma separated. -/
def jsonDumpsPairs : List (String × PyVal) → String
  | [] => ""
  | [(k, v)] => "\"" ++ k ++ "\": " ++ jsonDumps v
  | (k, v) :: kvs => "\"" ++ k ++ "\": " ++ jsonDumps v ++ ", " ++ jsonDumpsPairs kvs
end

/-- Model of Python `str(v)`.  In this codebase it is only applied to
strings and (defensively) `None`; other cases are approximated. -/
def pyStr : PyVal → String
  | .str s => s
  | .none => "None"
  | .bool b => if b then "True" else "False"
  | .int n => toString n
  | v => jsonDumps v

/-- A Redis hash with `decode_responses=True`: an association list of string
fields, as returned by `hgetall` (empty list = missing key). -/
abbrev JobData := List (String × String)

/-- `job_data.get(k)` on the decoded Redis hash. -/
def jdGet (jd : JobData) (k : String) : Option String :=
  jd.lookup k

/-- Falsiness of `job_data.get(k)`: missing key (`None`) or empty string. -/
def optFalsy (o : Option String) : Bool :=
  match o with
  | Option.none => true
  | some s => s == ""

/-- Outcome of calling a Yandex scraper function: a returned value, a raised
`CaptchaRequired` (carrying `captcha_url` and the exception text), or any
other raised exception (carrying `str(e)`). -/
inductive YOut where
  | ok : PyVal → YOut
  | captcha : String → String → YOut
  | exn : String → YOut

/-- Outcome of calling a GIS scraper function: a returned value or a raised
exception (carrying `str(e)`). -/
inductive GOut where
  | ok : PyVal → GOut
  | exn : String → GOut

/-- The `scrapers.yandex_scraper` collaborator (external to the core). -/
structure YandexScraper where
  get_statistics : JobData → YOut
  get_reviews : JobData → YOut
  get_competitors : JobData → YOut
  get_unread_reviews : JobData → YOut
  send_answer : JobData → YOut
  complain_about_a_review : JobData → YOut
  mark_as_read : JobData → YOut

/-- The `scrapers.gis_scraper` collaborator (external to the core). -/
structure GisScraper where
  get_statistics : JobData → GOut
  get_reviews_data : JobData → GOut
  get_reviews : JobData → GOut
  send_answer : JobData → GOut
  complain_about_a_review : JobData → GOut
  mark_as_main : JobData → GOut

/-- The success dict every Yandex operation branch returns directly:
`{"status": "success", "result": result, "error_message": ""}`. -/
def ySuccessDict (r : PyVal) : PyVal :=
  .dict [("status", .str "success"), ("result", r), ("error_message", .str "")]

/-- `run_yandex_operation` from `yandex_redirector.py`.

Structure of the source: the missing-`operation_type` `ValueError` is raised
before the `try`, so it propagates (modelled as `Except.error`).  Inside the
`try`, every known operation branch calls its scraper function and
immediately `return`s a success dict; the unknown-operation branch raises a
`ValueError` which the trailing `except Exception` turns into a failed dict.
Because every branch of the chain returns or raises, the
empty-result/`is_empty` classification block that follows the chain in the
source (lines 71–91) is unreachable; the translation therefore consists of
the dispatch chain plus the two `except` handlers (`CaptchaRequired` →
`captcha_required` dict, `Exception` → failed dict). -/
def run_yandex_operation (scr : YandexScraper) (job_data : JobData) :
    Except String PyVal :=
  let operation_type := jdGet job_data "operation_type"
  if optFalsy operation_type then
    Except.error "Job data missing 'operation_type' (should be inferred from queue)"
  else
    let op := operation_type.getD ""
    let tryOutcome : YOut :=
      if op == "statistics" then scr.get_statistics job_data
      else if op == "reviews" then scr.get_reviews job_data
      else if op == "competitors" then scr.get_competitors job_data
      else if op == "unread_reviews" then scr.get_unread_reviews job_data
      else if op == "send_answer" then scr.send_answer job_data
      else if op == "complain_about_a_review" then scr.complain_about_a_review job_data
      else if op == "mark_as_read" then scr.mark_as_read job_data
      else YOut.exn ("Unknown operation '" ++ op ++ "'")
    match tryOutcome with
    | .ok result => Except.ok (ySuccessDict result)
    | .captcha url msg =>
        Except.ok (.dict [("status", .str "captcha_required"),
          ("result", .dict [("captcha_url", .str url)]),
          ("error_message", .str msg)])
    | .exn msg =>
        Except.ok (.dict [("status", .str "failed"), ("result", .none),
          ("error_message", .str msg)])

/-- In `gis_redirector.py` the guard `if result is dict:` compares the value
with the type object `dict` by identity; no value the scrapers can return is
that type object, so the comparison is always `False`. -/
def gisResultIsTheTypeDict (_ : PyVal) : Bool := false

/-- `run_gis_operation` from `gis_redirector.py`.  The missing
`operation_type` `ValueError` is raised before the `try` and propagates; the
unknown-operation `ValueError` is raised inside the `try` and is caught by
the trailing `except Exception`, as is any scraper exception.  Unlike the
Yandex adapter, the operation branches fall through to the `is_empty`
classification. -/
def run_gis_operation (scr : GisScraper) (job_data : JobData) :
    Except String PyVal :=
  let operation_type := jdGet job_data "operation_type"
  if optFalsy operation_type then
    Except.error "Job data missing 'operation_type' (should be inferred from queue)"
  else
    let op := operation_type.getD ""
    let tryOutcome : GOut :=
      if op == "statistics" then scr.get_statistics job_data
      else if op == "reviews_data" then scr.get_reviews_data job_data
      else if op == "reviews" then scr.get_reviews job_data
      else if op == "send_answer" then scr.send_answer job_data
      else if op == "complain_about_a_review" then scr.complain_about_a_review job_data
      else if op == "mark_as_main" then scr.mark_as_main job_data
      else GOut.exn ("Unknown operation type: " ++ op)
    match tryOutcome with
    | .exn msg =>
        Except.ok (.dict [("status", .str "failed"), ("result", .none),
          ("error_message", .str msg)])
    | .ok result =>
        if gisResultIsTheTypeDict result && pyTruthy (pyGet result "result") then
          Except.ok (.dict [("status", pyGet result "result"), ("result", result)])
        else
          let is_empty : Bool :=
            if op == "statistics" then
              pyTruthy result && !pyTruthy (pyGet result "total_displays")
                && !pyTruthy (pyGet result "daily_statistics")
            else if op == "reviews_data" || op == "reviews" then
              !pyTruthy result
            else false
          if is_empty then
            Except.ok (.dict [("status", .str "warning"), ("result", result),
              ("error_message",
                .str "Operation completed successfully but returned no data.")])
          else
            Except.ok (.dict [("status", .str "success"), ("result", result),
              ("error_message", .str "")])

/-- `run_job` from `job_runner.py`: validate `scraper_type` and
`operation_type`, then dispatch to the matching redirector; unknown types
raise.  The `try/except` in the source re-raises the caught exception, so it
is transparent. -/
def run_job (y : YandexScraper) (g : GisScraper) (job_data : JobData) :
    Except String PyVal :=
  let job_type := jdGet job_data "scraper_type"
  if optFalsy job_type then
    Except.error "Job data must contain 'scraper_type' (inferred from queue)"
  else if optFalsy (jdGet job_data "operation_type") then
    Except.error "Job data must contain 'operation_type' (inferred from queue)"
  else
    let jt := job_type.getD ""
    if jt == "yandex" then run_yandex_operation y job_data
    else if jt == "gis" then run_gis_operation g job_data
    else Except.error ("Unknown job type: " ++ jt)

/-- The failed dict `execute_job` builds in its `except Exception` handler. -/
def failedWorkerDict (msg : String) : PyVal :=
  .dict [("status", .str "failed"), ("result", .none),
    ("error_message", .str ("Unhandled exception in worker: " ++ msg))]

/-- `execute_job` from `worker.py`: call `run_job`; a falsy result raises
`ValueError("Job execution returned no result.")` inside the same `try`, and
every exception is caught and normalized to a failed dict whose
`error_message` is `"Unhandled exception in worker: " ++ str(e)`.  The
function is total: no outcome propagates an exception to the main loop. -/
def execute_job (y : YandexScraper) (g : GisScraper) (job_data : JobData) : PyVal :=
  match run_job y g job_data with
  | .ok result_dict =>
      if !pyTruthy result_dict then
        failedWorkerDict "Job execution returned no result."
      else result_dict
  | .error e => failedWorkerDict e

/-! ## The Redis storage layer -/

/-- The Redis state the protocol touches: lists (pending queues, per-worker
processing ledgers, dead-letter), hashes (job records, as decoded string
field maps; the empty list models a missing key, matching `if not job_data`)
and sets (admission control, `queues:all`, `workers:all`).  List heads model
the `LPUSH` side; `BRPOP`/`RPOPLPUSH` pop from the tail. -/
structure RedisState where
  lists : String → List String
  hashes : String → List (String × String)
  sets : String → List String

/-- Point update of a string-indexed map. -/
def upd {α : Type} (f : String → α) (k : String) (v : α) : String → α :=
  fun k' => if k' = k then v else f k'

theorem upd_same {α : Type} (f : String → α) (k : String) (v : α) :
    upd f k v k = v := by simp [upd]

theorem upd_other {α : Type} (f : String → α) (k : String) (v : α)
    (k' : String) (h : k' ≠ k) : upd f k v k' = f k' := by simp [upd, h]

/-- `LPUSH key v`: one atomic storage action, prepending at the head. -/
def lpush (key v : String) (s : RedisState) : RedisState :=
  { s with lists := upd s.lists key (v :: s.lists key) }

/-- `BRPOP keys timeout`: one atomic storage action.  It scans `keys` in
order and pops the tail element of the first non-empty list, returning
`(key, element)`; if all lists are empty it returns `none` (timeout). -/
def brpop (keys : List String) (s : RedisState) :
    Option (String × String) × RedisState :=
  match keys with
  | [] => (Option.none, s)
  | k :: ks =>
      match (s.lists k).getLast? with
      | some v =>
          (some (k, v), { s with lists := upd s.lists k (s.lists k).dropLast })
      | Option.none => brpop ks s

/-- `RPOPLPUSH src dst` (also the blocking `BRPOPLPUSH`): one atomic storage
action moving the tail of `src` to the head of `dst`. -/
def rpoplpush (src dst : String) (s : RedisState) :
    Option String × RedisState :=
  match (s.lists src).getLast? with
  | Option.none => (Option.none, s)
  | some v =>
      let s1 := { s with lists := upd s.lists src (s.lists src).dropLast }
      (some v, { s1 with lists := upd s1.lists dst (v :: s1.lists dst) })

/-- `LREM key 1 v`: one atomic storage action removing the first occurrence
of `v` scanning from the head. -/
def lremFirst : List String → String → List String
  | [], _ => []
  | x :: xs, v => if x = v then xs else x :: lremFirst xs v

/-- The state effect of `LREM key 1 v`. -/
def lrem (key v : String) (s : RedisState) : RedisState :=
  { s with lists := upd s.lists key (lremFirst (s.lists key) v) }

/-- Setting one field of a Redis hash (order of bindings is irrelevant to
every access the code performs). -/
def hashSet (h : List (String × String)) (k v : String) :
    List (String × String) :=
  (k, v) :: h.filter (fun kv => kv.1 ≠ k)

/-- `HSET key mapping` with string values: one atomic storage action merging
the given fields into the hash. -/
def hsetVals (key : String) (fields : List (String × String))
    (s : RedisState) : RedisState :=
  { s with
    hashes := upd s.hashes key
      (fields.foldl (fun h kv => hashSet h kv.1 kv.2) (s.hashes key)) }

/-- redis-py encodes every mapping value before the command is sent; a
`None` value raises `DataError` (a `RedisError`) client-side, so either all
fields are strings and the write happens, or nothing is written at all. -/
def encodeFields : List (String × Option String) → Option (List (String × String))
  | [] => some []
  | (k, some v) :: rest => (encodeFields rest).map (fun fs => (k, v) :: fs)
  | (_, Option.none) :: _ => Option.none

/-- `HSET key mapping` where some values may be Python `None`: returns
`none` (client-side `DataError`, no write) if any value is `None`. -/
def hsetTry (key : String) (fields : List (String × Option String))
    (s : RedisState) : Option RedisState :=
  (encodeFields fields).map (fun fs => hsetVals key fs s)

/-- `SISMEMBER key v`. -/
def sismember (key v : String) (s : RedisState) : Bool :=
  (s.sets key).contains v

/-- `SADD key v`: one atomic storage action. -/
def sadd (key v : String) (s : RedisState) : RedisState :=
  if (s.sets key).contains v then s
  else { s with sets := upd s.sets key (v :: s.sets key) }

/-- The per-worker processing-ledger key `jobs:processing:<worker_id>`. -/
def processingKey (wid : String) : String := "jobs:processing:" ++ wid

/-- The job-record hash key `job:<job_id>`. -/
def jobKey (jobId : String) : String := "job:" ++ jobId

/-! ## Recovery (`recover_interrupted_jobs`, worker.py lines 144–152) -/

/-- Observable storage events of a worker-loop pass, in issue order. -/
inductive Ev where
  | popped (queue jobId : String) : Ev
  | pushedLedger (jobId : String) : Ev
  | hsetRecord (jobId : String) (fields : List (String × String)) : Ev
  | saddWorkers (wid : String) : Ev
  | execCalled (jobId : String) (jobData : JobData) : Ev
  | removedLedger (jobId : String) : Ev
  | pushedDeadLetter (jobId : String) : Ev
  | requeued (jobId : String) : Ev
deriving DecidableEq, Repr

/-- The `while (job_id := rpoplpush(processing, "jobs:queue")):` loop of
`recover_interrupted_jobs`, driven by fuel.  Since the ledger key is never
`"jobs:queue"`, each successful `RPOPLPUSH` shortens the ledger by one, so
fuel equal to the initial ledger length runs the loop to completion.

The walrus condition tests Python truthiness of the assigned `job_id`, so
the loop exits on `None` *or on the empty string*: a falsy ID has already
been moved by the `RPOPLPUSH` (and is recorded as a `requeued` event), but
the loop stops there, leaving any remaining ledger entries in place. -/
def recoverN : Nat → String → RedisState → RedisState × List Ev
  | 0, _, s => (s, [])
  | n + 1, pqk, s =>
      match rpoplpush pqk "jobs:queue" s with
      | (Option.none, s1) => (s1, [])
      | (some j, s1) =>
          if j = "" then (s1, [Ev.requeued j])
          else
            let r := recoverN n pqk s1
            (r.1, Ev.requeued j :: r.2)

/-- `recover_interrupted_jobs` from `worker.py`: for the running worker's
ledger, repeatedly `RPOPLPUSH` one job ID from the ledger back onto
`jobs:queue` while the popped ID is truthy (non-`None` and non-empty).
(The `llen == 0` early return in the source only skips logging; its state
effect coincides with running the loop on an empty ledger.)  No job hash
is read or written. -/
def recover_interrupted_jobs (wid : String) (s : RedisState) :
    RedisState × List Ev :=
  recoverN (s.lists (processingKey wid)).length (processingKey wid) s

/-! ## Worker loop (`worker.py` `main_loop`) -/

/-- `get_allowed_queues` from `worker.py`: every named queue from
`queues:all` whose per-queue forbidden set does not contain this worker,
then the default queue `jobs:queue` unless the default forbidden set
contains the worker.  (Redis set member order is unspecified; the model
uses the stored order.) -/
def get_allowed_queues (wid : String) (s : RedisState) : List String :=
  ((s.sets "queues:all").filter
      (fun name =>
        !((s.sets ("queue:" ++ name ++ ":forbidden_workers")).contains wid))).map
    (fun name => "jobs:queue:" ++ name)
  ++ (if (s.sets "queue:default:forbidden_workers").contains wid then []
      else ["jobs:queue"])

/-- Split a character list at every occurrence of `c`, keeping empty
segments — the semantics of Python `str.split(sep)` for a one-character
separator. -/
def splitChars (c : Char) : List Char → List (List Char)
  | [] => [[]]
  | x :: xs =>
      match splitChars c xs with
      | [] => [[]]
      | g :: gs => if x = c then [] :: g :: gs else (x :: g) :: gs

/-- Python `s.split(c)` for a one-character separator, modelled over the
string's characters. -/
def pySplit (s : String) (c : Char) : List String :=
  (splitChars c s.data).map (fun l => String.mk l)

/-- Python `s.endswith(suf)`, modelled over the strings' characters. -/
def pyEndsWith (s suf : String) : Bool :=
  suf.data.isSuffixOf s.data

/-- The queue-name inference of `worker.py` main_loop lines 257–271: for the
default queue (`jobs:queue` or any name ending in `:default`) force
`scraper_type = "gis"` and keep the record's `operation_type`; otherwise
derive both from the queue-name segments (`jobs:queue:yandex:statistics` →
`yandex`, `statistics`), falling back to the last segment
(`parts[-1]`; `split` never returns an empty list) plus the record's
`operation_type` when fewer than four segments exist. -/
def inferScraperOp (queue_name : String) (job_data : JobData) :
    String × Option String :=
  if queue_name == "jobs:queue" || pyEndsWith queue_name ":default" then
    ("gis", jdGet job_data "operation_type")
  else
    let parts := pySplit queue_name ':'
    if parts.length ≥ 4 then (parts.getD 2 "", some (parts.getD 3 ""))
    else (parts.getLastD "", jdGet job_data "operation_type")

/-- `job_data[k] = v` for a string value. -/
def jdSet (jd : JobData) (k v : String) : JobData := hashSet jd k v

/-- `job_data[k] = v` where `v` may be Python `None`.  A `None`-valued entry
behaves exactly like an absent key for the `.get`-based accesses this
codebase performs, so it is modelled by erasing the key. -/
def jdSetOpt (jd : JobData) (k : String) (v : Option String) : JobData :=
  match v with
  | some x => hashSet jd k x
  | Option.none => jd.filter (fun kv => kv.1 ≠ k)

/-- The fields written by the cancellation branch of the worker loop. -/
def cancelledFields (wid now : String) : List (String × String) :=
  [("status", "cancelled"), ("worker_id", wid), ("started_at", now),
   ("completed_at", now),
   ("error_message", "Job was cancelled before execution.")]

/-- The fields written just before execution (`worker.py` lines 248–253):
note the status label is `in_progress`. -/
def inProgressFields (wid now : String) : List (String × String) :=
  [("status", "in_progress"), ("worker_id", wid), ("started_at", now)]

/-- The status mapping and `error_message` fallback of `worker.py` lines
275–287: `success` maps to `completed`; `warning`, `captcha_required` and
`failed` pass through; anything else becomes `failed` and, if
`error_message` is falsy, an explanatory message is substituted. -/
def finalStatusAndError (internal_status error_message : PyVal) :
    String × PyVal :=
  if pyEqStr internal_status "success" then ("completed", error_message)
  else if pyEqStr internal_status "warning"
      || pyEqStr internal_status "captcha_required"
      || pyEqStr internal_status "failed" then
    (pyStr internal_status, error_message)
  else
    ("failed",
      if !pyTruthy error_message then
        .str ("Job finished with unhandled internal status: "
          ++ pyStr internal_status)
      else error_message)

/-- The completion payload of `worker.py` lines 289–294.  `result_data` is
Python `None` when the outcome carried no result, and `HSET` rejects `None`
values client-side, which the caller must handle. -/
def completionPayload (now : String) (final_job_status : String)
    (result_data error_message : PyVal) : List (String × Option String) :=
  [("completed_at", some now),
   ("status", some final_job_status),
   ("result_data",
     if pyIsNone result_data then Option.none else some (jsonDumps result_data)),
   ("error_message",
     some (if pyIsNone error_message then "" else pyStr error_message))]

/-- The commit step of the worker loop (`worker.py` lines 296–299): write
the completion payload to the job record, then — only if that write
succeeded — remove the job ID from this worker's processing ledger.  A
client-side `DataError` (a `RedisError`) aborts the iteration before the
`LREM`, leaving the ledger entry in place. -/
def commit_job (wid jobId : String)
    (payload : List (String × Option String)) (s : RedisState) :
    RedisState × Bool :=
  match hsetTry (jobKey jobId) payload s with
  | Option.none => (s, false)
  | some s1 => (lrem (processingKey wid) jobId s1, true)

/-- One pass of the `while True:` body of `main_loop` in `worker.py`,
returning the resulting storage state and the ordered storage events.
Parameters: the two scraper collaborators, the worker identity, the current
timestamp (`datetime.now(...).isoformat()`), and the starting state.
The `time.sleep` calls and all logging are omitted; a `continue` is simply
the end of the pass. -/
def main_loop_iteration (y : YandexScraper) (g : GisScraper)
    (wid now : String) (s : RedisState) : RedisState × List Ev :=
  let pqk := processingKey wid
  if sismember "forbidden:workers" wid s then (s, [])
  else
    let allowed_queues := get_allowed_queues wid s
    if allowed_queues.isEmpty then (s, [])
    else
      match brpop allowed_queues s with
      | (Option.none, s1) => (s1, [])
      | (some (queue_name, job_id), s1) =>
          let s2 := lpush pqk job_id s1
          let ev0 := [Ev.popped queue_name job_id, Ev.pushedLedger job_id]
          let jhk := jobKey job_id
          let job_data := s2.hashes jhk
          if job_data.isEmpty then
            (lrem pqk job_id s2, ev0 ++ [Ev.removedLedger job_id])
          else if jdGet job_data "status" == some "cancelled" then
            let s3 := hsetVals jhk (cancelledFields wid now) s2
            (lrem pqk job_id s3,
              ev0 ++ [Ev.hsetRecord job_id (cancelledFields wid now),
                Ev.removedLedger job_id])
          else if jdGet job_data "status" == some "completed"
              || jdGet job_data "status" == some "failed"
              || jdGet job_data "status" == some "cancelled" then
            (lrem pqk job_id s2, ev0 ++ [Ev.removedLedger job_id])
          else
            let s3 := hsetVals jhk (inProgressFields wid now) s2
            let s4 := sadd "workers:all" wid s3
            let inferred := inferScraperOp queue_name job_data
            let job_data2 :=
              jdSetOpt (jdSet job_data "scraper_type" inferred.1)
                "operation_type" inferred.2
            let job_outcome := execute_job y g job_data2
            let ev1 := ev0 ++ [Ev.hsetRecord job_id (inProgressFields wid now),
              Ev.saddWorkers wid, Ev.execCalled job_id job_data2]
            let internal_status := pyGetD job_outcome "status" (.str "failed")
            let result_data := pyGet job_outcome "result"
            let fse := finalStatusAndError internal_status
              (pyGetD job_outcome "error_message" (.str ""))
            let payload := completionPayload now fse.1 result_data fse.2
            match encodeFields payload with
            | Option.none =>
                -- client-side DataError → outer `except RedisError`: no
                -- commit, no ledger removal, no recovery pass
                (s4, ev1)
            | some fs =>
                let s5 := hsetVals jhk fs s4
                let s6 := lrem pqk job_id s5
                let r := recover_interrupted_jobs wid s6
                (r.1, ev1 ++ [Ev.hsetRecord job_id fs, Ev.removedLedger job_id]
                  ++ r.2)

/-- The fields written by the dead-letter exception handler. -/
def deadLetterFields (err now : String) : List (String × String) :=
  [("status", "failed"),
   ("error_message", "Unhandled worker exception: " ++ err),
   ("completed_at", now)]

/-- The `MULTI/EXEC` pipeline of the unhandled-exception handler
(`worker.py` lines 310–317): update the job record and push the job ID onto
the dead-letter list as one atomic transaction. -/
def dead_letter_pipeline (jobId err now : String) (s : RedisState) :
    RedisState :=
  lpush "jobs:dead-letter" jobId
    (hsetVals (jobKey jobId) (deadLetterFields err now) s)

/-- The unhandled-exception handler of `main_loop` (`worker.py` lines
304–322): run the atomic pipeline, then remove the job ID from the ledger.
`pipelineOk = false` models the pipeline raising a `RedisError`: nothing is
written and — deliberately — the ledger is left untouched for recovery on
restart. -/
def dead_letter_handle (wid jobId err now : String) (pipelineOk : Bool)
    (s : RedisState) : RedisState :=
  if pipelineOk then
    lrem (processingKey wid) jobId (dead_letter_pipeline jobId err now s)
  else s

/-! ## The claim operation -/

/-- The claim operation of `worker.py` main_loop lines 211–218: a `BRPOP`
across all allowed queues, followed — as a second, separate storage
action — by an `LPUSH` of the received job ID onto this worker's processing
ledger. -/
def worker_claim (allowed : List String) (wid : String) (s : RedisState) :
    Option (String × String) × RedisState :=
  match brpop allowed s with
  | (Option.none, s1) => (Option.none, s1)
  | (some (q, j), s1) => (some (q, j), lpush (processingKey wid) j s1)

/-- The claim operation of `main.py` main_loop lines 195–199: a single
`BRPOPLPUSH` from `jobs:queue` into this worker's processing ledger — one
atomic storage action. -/
def mainpy_claim (wid : String) (s : RedisState) :
    Option String × RedisState :=
  rpoplpush "jobs:queue" (processingKey wid) s

/-! ## Lemmas about the primitives -/

theorem brpop_none (keys : List String) (s : RedisState)
    (h : (brpop keys s).1 = Option.none) : (brpop keys s).2 = s := by
  induction keys with
  | nil => rfl
  | cons k ks ih =>
      unfold brpop at h ⊢
      cases hl : (s.lists k).getLast? with
      | some v => simp [hl] at h
      | none => simp [hl] at h ⊢; exact ih h

/-- `BRPOP` characterization: a delivered element came from one of the
scanned keys, it was the tail of that key's list, the new state drops
exactly that tail element, and no other list is touched. -/
theorem brpop_some (keys : List String) (s : RedisState) (q j : String)
    (s' : RedisState) (h : brpop keys s = (some (q, j), s')) :
    q ∈ keys ∧ (s.lists q).getLast? = some j ∧
      s' = { s with lists := upd s.lists q (s.lists q).dropLast } := by
  induction keys with
  | nil => simp [brpop] at h
  | cons k ks ih =>
      unfold brpop at h
      cases hl : (s.lists k).getLast? with
      | some v =>
          simp [hl] at h
          obtain ⟨⟨hq, hj⟩, hs⟩ := h
          subst hq; subst hj
          exact ⟨List.mem_cons_self _ _, hl, hs.symm⟩
      | none =>
          simp [hl] at h
          obtain ⟨h1, h2, h3⟩ := ih h
          exact ⟨List.mem_cons_of_mem _ h1, h2, h3⟩

theorem brpop_hashes (keys : List String) (s : RedisState) :
    (brpop keys s).2.hashes = s.hashes := by
  induction keys with
  | nil => rfl
  | cons k ks ih =>
      unfold brpop
      cases hl : (s.lists k).getLast? with
      | some v => rfl
      | none => simpa [hl] using ih

theorem brpop_sets (keys : List String) (s : RedisState) :
    (brpop keys s).2.sets = s.sets := by
  induction keys with
  | nil => rfl
  | cons k ks ih =>
      unfold brpop
      cases hl : (s.lists k).getLast? with
      | some v => rfl
      | none => simpa [hl] using ih

/-- A list whose `getLast?` is `some j` is its own `dropLast` plus `[j]`. -/
theorem eq_dropLast_append_of_getLast? {l : List String} {j : String}
    (h : l.getLast? = some j) : l = l.dropLast ++ [j] := by
  cases l with
  | nil => simp at h
  | cons x xs =>
      have hne : x :: xs ≠ [] := by simp
      rw [List.getLast?_eq_getLast _ hne] at h
      have hdl := List.dropLast_append_getLast hne
      rw [Option.some_inj] at h
      rw [h] at hdl
      exact hdl.symm

theorem count_of_getLast? {l : List String} {j : String}
    (h : l.getLast? = some j) :
    l.count j = l.dropLast.count j + 1 := by
  conv_lhs => rw [eq_dropLast_append_of_getLast? h]
  simp [List.count_append]

theorem lremFirst_cons_self (l : List String) (j : String) :
    lremFirst (j :: l) j = l := by simp [lremFirst]

theorem lremFirst_sublist (l : List String) (v : String) :
    (lremFirst l v).Sublist l := by
  induction l with
  | nil => simp [lremFirst]
  | cons x xs ih =>
      by_cases h : x = v
      · simp [lremFirst, h, List.sublist_cons_self]
      · simpa [lremFirst, h] using List.Sublist.cons₂ x ih

theorem lremFirst_count_le (l : List String) (v j : String) :
    (lremFirst l v).count j ≤ l.count j :=
  (lremFirst_sublist l v).count_le j

/-! ## Counting a job ID across queue and ledger keys -/

/-- Total number of occurrences of job ID `j` across the lists named by
`keys` (the pending queues together with the per-worker ledgers). -/
def countAcross (keys : List String) (s : RedisState) (j : String) : Nat :=
  (keys.map (fun k => (s.lists k).count j)).sum

theorem countAcross_congr (keys : List String) (s s' : RedisState)
    (j : String) (h : ∀ k ∈ keys, s'.lists k = s.lists k) :
    countAcross keys s' j = countAcross keys s j := by
  unfold countAcross
  induction keys with
  | nil => rfl
  | cons k ks ih =>
      simp only [List.map_cons, List.sum_cons]
      rw [h k (List.mem_cons_self _ _), ih (fun a ha => h a (List.mem_cons_of_mem _ ha))]

theorem count_le_countAcross (keys : List String) (s : RedisState)
    (j k : String) (hk : k ∈ keys) :
    (s.lists k).count j ≤ countAcross keys s j := by
  unfold countAcross
  induction keys with
  | nil => simp at hk
  | cons a as ih =>
      simp only [List.map_cons, List.sum_cons]
      rcases List.mem_cons.mp hk with h | h
      · subst h; exact Nat.le_add_right _ _
      · exact le_trans (ih h) (Nat.le_add_left _ _)

/-- Replacing the list stored at one key of a duplicate-free key set shifts
the total count by exactly the difference at that key. -/
theorem countAcross_upd (keys : List String) (hnd : keys.Nodup)
    (f : String → List String) (hashes0 : String → List (String × String))
    (sets0 : String → List String) (q : String) (hq : q ∈ keys)
    (l' : List String) (j : String) :
    countAcross keys ⟨upd f q l', hashes0, sets0⟩ j + (f q).count j
      = countAcross keys ⟨f, hashes0, sets0⟩ j + l'.count j := by
  unfold countAcross
  induction keys with
  | nil => simp at hq
  | cons k ks ih =>
      simp only [List.map_cons, List.sum_cons]
      rcases List.mem_cons.mp hq with h | h
      · subst h
        have hknotin : q ∉ ks := (List.nodup_cons.mp hnd).1
        have hrest : ∀ a ∈ ks, upd f q l' a = f a := by
          intro a ha
          exact upd_other f q l' a (fun hak => hknotin (hak ▸ ha))
        have hsum : (ks.map (fun a => ((upd f q l') a).count j)).sum
            = (ks.map (fun a => (f a).count j)).sum := by
          congr 1
          exact List.map_congr_left (fun a ha => by rw [hrest a ha])
        simp only [upd_same, hsum]
        omega
      · have hkq : k ≠ q := fun hkq => (List.nodup_cons.mp hnd).1 (hkq ▸ h)
        have hih := ih (List.nodup_cons.mp hnd).2 h
        simp only [upd_other f q l' k hkq] at *
        omega

/-- Monotone bound: if every key's count is no larger in `s'` than in `s`,
the total is no larger. -/
theorem countAcross_mono (keys : List String) (s s' : RedisState)
    (j : String) (h : ∀ k ∈ keys, (s'.lists k).count j ≤ (s.lists k).count j) :
    countAcross keys s' j ≤ countAcross keys s j := by
  unfold countAcross
  induction keys with
  | nil => simp
  | cons k ks ih =>
      simp only [List.map_cons, List.sum_cons]
      exact Nat.add_le_add (h k (List.mem_cons_self _ _))
        (ih (fun a ha => h a (List.mem_cons_of_mem _ ha)))

/-! ## Recovery characterization -/

/-- A worker's processing-ledger key is never the pending queue key. -/
theorem processingKey_ne_queue (wid : String) :
    processingKey wid ≠ "jobs:queue" := by
  intro h
  have h2 := congrArg String.length h
  rw [processingKey, String.length_append] at h2
  have e1 : "jobs:processing:".length = 16 := rfl
  have e2 : "jobs:queue".length = 10 := rfl
  omega

/-- Explicit equation for a successful `RPOPLPUSH`. -/
theorem rpoplpush_eq_some (src dst : String) (s : RedisState) (j : String)
    (hj : (s.lists src).getLast? = some j) :
    rpoplpush src dst s =
      (some j,
        { s with
          lists :=
            upd (upd s.lists src (s.lists src).dropLast) dst
              (j :: upd s.lists src (s.lists src).dropLast dst) }) := by
  unfold rpoplpush
  rw [hj]

/-- Running the recovery loop with fuel equal to the ledger length over a
ledger whose entries are all truthy (non-empty strings) empties the ledger,
prepends its contents (head to tail) onto `jobs:queue`, touches no other
list, and touches no hash or set; one `requeued` event is emitted per
ledger entry, tail first.  (With a falsy entry the loop stops early —
see `C3_counterexample`.) -/
theorem recoverN_spec (n : Nat) (pqk : String) (s : RedisState)
    (hne : pqk ≠ "jobs:queue") (hlen : (s.lists pqk).length = n)
    (hids : ∀ x ∈ s.lists pqk, x ≠ "") :
    (recoverN n pqk s).1.lists pqk = [] ∧
    (recoverN n pqk s).1.lists "jobs:queue"
      = s.lists pqk ++ s.lists "jobs:queue" ∧
    (∀ k, k ≠ pqk → k ≠ "jobs:queue" →
      (recoverN n pqk s).1.lists k = s.lists k) ∧
    (recoverN n pqk s).1.hashes = s.hashes ∧
    (recoverN n pqk s).1.sets = s.sets ∧
    (recoverN n pqk s).2 = (s.lists pqk).reverse.map Ev.requeued := by
  induction n generalizing s with
  | zero =>
      have h0 : s.lists pqk = [] := List.length_eq_zero.mp hlen
      simp [recoverN, h0]
  | succ m ih =>
      have hnil : s.lists pqk ≠ [] := by
        intro h0; rw [h0] at hlen; simp at hlen
      obtain ⟨j, hj⟩ : ∃ j, (s.lists pqk).getLast? = some j := by
        cases hl : (s.lists pqk).getLast? with
        | some v => exact ⟨v, rfl⟩
        | none => exact absurd (List.getLast?_eq_none_iff.mp hl) hnil
      have heq := eq_dropLast_append_of_getLast? hj
      have hqp : "jobs:queue" ≠ pqk := fun h => hne h.symm
      have hjmem : j ∈ s.lists pqk := by
        rw [heq]
        exact List.mem_append_right _ (List.mem_singleton_self j)
      have hjne : j ≠ "" := hids j hjmem
      unfold recoverN
      rw [rpoplpush_eq_some pqk "jobs:queue" s j hj]
      simp only [hjne, if_false]
      set s1 : RedisState :=
        { s with
          lists :=
            upd (upd s.lists pqk (s.lists pqk).dropLast) "jobs:queue"
              (j :: upd s.lists pqk (s.lists pqk).dropLast "jobs:queue") }
        with hs1
      have hs1pqk : s1.lists pqk = (s.lists pqk).dropLast := by
        rw [hs1]; simp only []
        rw [upd_other _ _ _ _ hne, upd_same]
      have hs1q : s1.lists "jobs:queue" = j :: s.lists "jobs:queue" := by
        rw [hs1]; simp only []
        rw [upd_same, upd_other _ _ _ _ hqp]
      have hs1o : ∀ k, k ≠ pqk → k ≠ "jobs:queue" → s1.lists k = s.lists k := by
        intro k hk1 hk2
        rw [hs1]; simp only []
        rw [upd_other _ _ _ _ hk2, upd_other _ _ _ _ hk1]
      have hlen1 : (s1.lists pqk).length = m := by
        rw [hs1pqk, List.length_dropLast]
        omega
      have hids1 : ∀ x ∈ s1.lists pqk, x ≠ "" := by
        intro x hx
        refine hids x ?_
        rw [hs1pqk] at hx
        exact (List.dropLast_sublist _).subset hx
      obtain ⟨h1, h2, h3, h4, h5, h6⟩ := ih s1 hlen1 hids1
      refine ⟨h1, ?_, ?_, h4, h5, ?_⟩
      · rw [h2, hs1q, hs1pqk]
        conv_rhs => rw [heq]
        simp
      · intro k hk1 hk2
        rw [h3 k hk1 hk2, hs1o k hk1 hk2]
      · rw [h6, hs1pqk]
        conv_rhs => rw [heq]
        simp

/-! ## Concrete states for counterexamples and witnesses -/

/-- The empty storage state. -/
def emptyState : RedisState :=
  { lists := fun _ => [], hashes := fun _ => [], sets := fun _ => [] }

/-- A state whose only non-empty key is the default pending queue. -/
def stateWithQueue (q : List String) : RedisState :=
  { emptyState with lists := upd emptyState.lists "jobs:queue" q }

/-! ## Claim C1 -/

/-- C1 (counterexample): in `worker.py` the claim operation is `BRPOP`
followed by a separate `LPUSH` (see `worker_claim`), not one indivisible
storage action.  Starting from a state whose pending queue holds exactly
`"j1"`, after the first of the two storage actions the job ID has already
been delivered but is in neither the pending queue nor worker `w1`'s
processing ledger — the intermediate state the claim says cannot exist.
Only the second action (the `LPUSH`) puts it into the ledger. -/
theorem C1_counterexample :
    (brpop ["jobs:queue"] (stateWithQueue ["j1"])).1
      = some ("jobs:queue", "j1") ∧
    ((brpop ["jobs:queue"] (stateWithQueue ["j1"])).2.lists
      "jobs:queue").count "j1" = 0 ∧
    ((brpop ["jobs:queue"] (stateWithQueue ["j1"])).2.lists
      (processingKey "w1")).count "j1" = 0 ∧
    (worker_claim ["jobs:queue"] "w1" (stateWithQueue ["j1"])).2
      = lpush (processingKey "w1") "j1"
          (brpop ["jobs:queue"] (stateWithQueue ["j1"])).2 ∧
    (worker_claim ["jobs:queue"] "w1" (stateWithQueue ["j1"])).2.lists
      (processingKey "w1") = ["j1"] := by
  refine ⟨by decide, by decide, by decide, rfl, by decide⟩

/-- C1 (amended): the `worker.py` claim operation transfers a job ID in two
storage-layer actions rather than one.  The first action, the `BRPOP`, is
itself atomic: it delivers the tail element of one allowed queue and
removes exactly that occurrence in the same action, leaving all other
lists untouched — so when the queues hold the ID at most once, a second
concurrent claimer can never receive the same ID (after the pop the ID is
in no allowed queue at all).  The second action, a separate `LPUSH`, then
places the ID at the head of the calling worker's processing ledger; in
between the ID is in neither the pending queue nor the ledger. -/
theorem C1_amended (allowed : List String) (wid : String) (s : RedisState)
    (q j : String) (s2 : RedisState)
    (h : worker_claim allowed wid s = (some (q, j), s2)) :
    ∃ s1 : RedisState,
      brpop allowed s = (some (q, j), s1) ∧
      q ∈ allowed ∧
      (s1.lists q).count j + 1 = (s.lists q).count j ∧
      (∀ k, k ≠ q → s1.lists k = s.lists k) ∧
      s2 = lpush (processingKey wid) j s1 ∧
      s2.lists (processingKey wid) = j :: s1.lists (processingKey wid) ∧
      (allowed.Nodup → countAcross allowed s j = 1 →
        ∀ k ∈ allowed, (s1.lists k).count j = 0) := by
  unfold worker_claim at h
  rcases hb : brpop allowed s with ⟨r, s1⟩
  rw [hb] at h
  cases r with
  | none => simp at h
  | some p =>
      obtain ⟨q0, j0⟩ := p
      simp only [Prod.mk.injEq, Option.some.injEq] at h
      obtain ⟨⟨hq0, hj0⟩, hs2⟩ := h
      rw [hq0] at hb ⊢
      rw [hj0] at hb hs2 ⊢
      obtain ⟨hqmem, hlast, hs1⟩ := brpop_some allowed s q j s1 hb
      have hs1lists : s1.lists = upd s.lists q (s.lists q).dropLast := by
        rw [hs1]
      have hcnt : (s1.lists q).count j + 1 = (s.lists q).count j := by
        rw [hs1lists, upd_same, ← count_of_getLast? hlast]
      refine ⟨s1, rfl, hqmem, hcnt, ?_, hs2.symm, ?_, ?_⟩
      · intro k hk
        rw [hs1lists, upd_other _ _ _ _ hk]
      · rw [← hs2, lpush]
        simp only [upd_same]
      · intro hnd hone k hk
        have hupd := countAcross_upd allowed hnd s.lists s.hashes s.sets q
          hqmem (s.lists q).dropLast j
        have hs1c : countAcross allowed s1 j
            = countAcross allowed
                ⟨upd s.lists q (s.lists q).dropLast, s.hashes, s.sets⟩ j :=
          countAcross_congr _ _ _ _ (fun k _ => by rw [hs1lists])
        have hqle : (s.lists q).count j ≤ 1 :=
          hone ▸ count_le_countAcross allowed s j q hqmem
        have hs1q : (s1.lists q).count j = ((s.lists q).dropLast).count j := by
          rw [hs1lists, upd_same]
        have hdrop : ((s.lists q).dropLast).count j = 0 := by omega
        have hzero : countAcross allowed s1 j = 0 := by
          rw [hs1c]
          have hsa : countAcross allowed ⟨s.lists, s.hashes, s.sets⟩ j
              = countAcross allowed s j :=
            countAcross_congr _ _ _ _ (fun _ _ => rfl)
          omega
        have := count_le_countAcross allowed s1 j k hk
        omega

/-- Witness for `C1_amended` at a concrete state: worker `w1` claims from a
queue holding exactly `j1`; the atomic pop delivers `j1` and removes its
only occurrence. -/
theorem C1_amended_witness :
    ∃ s1 : RedisState,
      brpop ["jobs:queue"] (stateWithQueue ["j1"])
        = (some ("jobs:queue", "j1"), s1) ∧
      "jobs:queue" ∈ ["jobs:queue"] ∧
      (s1.lists "jobs:queue").count "j1" + 1
        = ((stateWithQueue ["j1"]).lists "jobs:queue").count "j1" := by
  obtain ⟨s1, h1, h2, h3, -⟩ :=
    C1_amended ["jobs:queue"] "w1" (stateWithQueue ["j1"]) "jobs:queue" "j1"
      (worker_claim ["jobs:queue"] "w1" (stateWithQueue ["j1"])).2 rfl
  exact ⟨s1, h1, h2, h3⟩

/-! ## Hash lookup lemmas -/

theorem length_eq_zero_iff_empty (w : String) (h : w.length = 0) : w = "" := by
  cases w with
  | mk l =>
      cases l with
      | nil => rfl
      | cons c cs => simp [String.length] at h

/-- A worker's processing-ledger key is never the dead-letter key. -/
theorem processingKey_ne_dlq (wid : String) :
    processingKey wid ≠ "jobs:dead-letter" := by
  intro h
  have hlen := congrArg String.length h
  rw [processingKey, String.length_append] at hlen
  have e1 : "jobs:processing:".length = 16 := rfl
  have e2 : "jobs:dead-letter".length = 16 := rfl
  have hw : wid.length = 0 := by omega
  rw [processingKey, length_eq_zero_iff_empty wid hw] at h
  exact absurd h (by decide)

theorem lookup_hashSet_same (h : List (String × String)) (k v : String) :
    (hashSet h k v).lookup k = some v := by
  simp [hashSet, List.lookup]

theorem lookup_filter_ne (h : List (String × String)) (k k' : String)
    (hne : k' ≠ k) :
    (h.filter (fun kv => kv.1 ≠ k)).lookup k' = h.lookup k' := by
  simp only [ne_eq, decide_not]
  induction h with
  | nil => rfl
  | cons x t ih =>
      have hbk : (k' == k) = false := beq_eq_false_iff_ne.mpr hne
      by_cases hx : x.1 = k
      · simp [List.filter_cons, List.lookup, hx, hbk, ih]
      · by_cases hk'x : k' = x.1
        · simp [List.filter_cons, List.lookup, hx, hk'x]
        · have hb : (k' == x.1) = false := beq_eq_false_iff_ne.mpr hk'x
          simp [List.filter_cons, List.lookup, hx, hb, ih]

theorem lookup_hashSet_other (h : List (String × String)) (k v k' : String)
    (hne : k' ≠ k) :
    (hashSet h k v).lookup k' = h.lookup k' := by
  have hb : (k' == k) = false := by simp [hne]
  have hf := lookup_filter_ne h k k' hne
  simp only [ne_eq, decide_not] at hf
  simp [hashSet, List.lookup, hb, hf]

/-! ## Claim C4 -/

/-- C4: for an unhandled exception while processing claimed job `jobId`,
the handler's single atomic pipeline (`dead_letter_pipeline`) writes
`status = "failed"` and the non-empty
`error_message = "Unhandled worker exception: " ++ err` to the job record
and pushes the ID onto the dead-letter sink, without touching the ledger;
only after that one transaction does `dead_letter_handle` remove the ID
from the worker's processing ledger.  If the pipeline itself fails
(`pipelineOk = false`), the state is completely unchanged — the ID is left
in the ledger. -/
theorem C4_dead_letter_handler (wid jobId err now : String) (s : RedisState) :
    ((dead_letter_pipeline jobId err now s).hashes (jobKey jobId)).lookup
      "status" = some "failed" ∧
    ((dead_letter_pipeline jobId err now s).hashes (jobKey jobId)).lookup
      "error_message" = some ("Unhandled worker exception: " ++ err) ∧
    "Unhandled worker exception: " ++ err ≠ "" ∧
    (dead_letter_pipeline jobId err now s).lists "jobs:dead-letter"
      = jobId :: s.lists "jobs:dead-letter" ∧
    (dead_letter_pipeline jobId err now s).lists (processingKey wid)
      = s.lists (processingKey wid) ∧
    dead_letter_handle wid jobId err now true s
      = lrem (processingKey wid) jobId (dead_letter_pipeline jobId err now s) ∧
    (dead_letter_handle wid jobId err now true s).lists (processingKey wid)
      = lremFirst (s.lists (processingKey wid)) jobId ∧
    dead_letter_handle wid jobId err now false s = s := by
  have hpk := processingKey_ne_dlq wid
  have hlk : (dead_letter_pipeline jobId err now s).hashes (jobKey jobId)
      = hashSet (hashSet (hashSet (s.hashes (jobKey jobId))
          "status" "failed")
          "error_message" ("Unhandled worker exception: " ++ err))
          "completed_at" now := by
    simp [dead_letter_pipeline, lpush, hsetVals, deadLetterFields, upd_same,
      List.foldl]
  refine ⟨?_, ?_, ?_, ?_, ?_, rfl, ?_, rfl⟩
  · rw [hlk]
    rw [lookup_hashSet_other _ _ _ _ (by decide),
      lookup_hashSet_other _ _ _ _ (by decide), lookup_hashSet_same]
  · rw [hlk]
    rw [lookup_hashSet_other _ _ _ _ (by decide), lookup_hashSet_same]
  · intro h
    have hlen := congrArg String.length h
    rw [String.length_append] at hlen
    have e1 : "Unhandled worker exception: ".length = 28 := rfl
    have e2 : ("" : String).length = 0 := rfl
    omega
  · simp [dead_letter_pipeline, lpush, hsetVals, upd_same]
  · simp [dead_letter_pipeline, lpush, hsetVals]
    rw [upd_other _ _ _ _ hpk]
  · simp [dead_letter_handle, lrem, dead_letter_pipeline, lpush, hsetVals,
      upd_same]
    rw [upd_other _ _ _ _ hpk]

/-! ## Stub collaborators for witnesses and counterexamples -/

/-- A Yandex scraper stub whose read operations all succeed with
empty/degenerate payloads (zero rows, empty result lists). -/
def yScrEmpty : YandexScraper :=
  { get_statistics := fun _ => .ok (.dict [("statistics", .list [])]),
    get_reviews := fun _ =>
      .ok (.dict [("reviews", .dict [("reviews_info_list", .list [])])]),
    get_competitors := fun _ => .ok (.dict [("competitors", .list [])]),
    get_unread_reviews := fun _ => .ok (.dict [("reviews", .list [])]),
    send_answer := fun _ => .ok PyVal.none,
    complain_about_a_review := fun _ => .ok PyVal.none,
    mark_as_read := fun _ => .ok PyVal.none }

/-- A GIS scraper stub whose read operations all succeed with empty
payloads. -/
def gScrEmpty : GisScraper :=
  { get_statistics := fun _ => .ok (.dict []),
    get_reviews_data := fun _ => .ok (.list []),
    get_reviews := fun _ => .ok (.list []),
    send_answer := fun _ => .ok PyVal.none,
    complain_about_a_review := fun _ => .ok PyVal.none,
    mark_as_main := fun _ => .ok PyVal.none }

/-- A GIS scraper stub that succeeds with a non-empty review list. -/
def gScrNonEmpty : GisScraper :=
  { gScrEmpty with get_reviews := fun _ => .ok (.list [.str "r1"]) }

/-- A Yandex scraper stub whose statistics operation raises
`CaptchaRequired`. -/
def yScrCaptcha : YandexScraper :=
  { yScrEmpty with
    get_statistics := fun _ =>
      .captcha "https://captcha.example" "Captcha required" }

/-! ## Claim C6 -/

/-- C6: the claim says an Executor success with an empty/degenerate payload
is classified `warning`, not `completed`.  The code violates this for every
Yandex operation: because each branch of `run_yandex_operation` returns its
success dict immediately, the `is_empty` classification block is
unreachable, and a Yandex `reviews` (or `statistics`) success with an empty
payload is reported with status `"success"`, which the worker loop maps to
`completed`.  The GIS adapter, whose classification block *is* reachable,
returns `"warning"` for the same situation — evidence that the dead Yandex
block is a slip and the spec describes the intent. -/
theorem C6_yandex_empty_payload_is_success :
    run_yandex_operation yScrEmpty [("operation_type", "reviews")]
      = Except.ok (ySuccessDict
          (.dict [("reviews", .dict [("reviews_info_list", .list [])])])) ∧
    run_yandex_operation yScrEmpty [("operation_type", "statistics")]
      = Except.ok (ySuccessDict (.dict [("statistics", .list [])])) ∧
    run_gis_operation gScrEmpty [("operation_type", "reviews")]
      = Except.ok (.dict [("status", .str "warning"),
          ("result", .list []),
          ("error_message",
            .str "Operation completed successfully but returned no data.")]) :=
  ⟨rfl, rfl, rfl⟩

/-! ## Claim C8 -/

theorem run_yandex_hasKey (scr : YandexScraper) (jd : JobData) (v : PyVal)
    (h : run_yandex_operation scr jd = Except.ok v) :
    pyHasKey v "status" = true := by
  simp only [run_yandex_operation] at h
  split at h
  · cases h
  · split at h <;>
      · injection h with h'
        subst h'
        simp [pyHasKey, ySuccessDict]

theorem run_gis_hasKey (scr : GisScraper) (jd : JobData) (v : PyVal)
    (h : run_gis_operation scr jd = Except.ok v) :
    pyHasKey v "status" = true := by
  simp only [run_gis_operation] at h
  split at h
  · cases h
  · split at h
    · injection h with h'
      subst h'
      simp [pyHasKey]
    · split_ifs at h
      all_goals
        injection h with h'
        subst h'
        simp [pyHasKey]

theorem run_job_hasKey (y : YandexScraper) (g : GisScraper) (jd : JobData)
    (v : PyVal) (h : run_job y g jd = Except.ok v) :
    pyHasKey v "status" = true := by
  simp only [run_job] at h
  split at h
  · cases h
  · split at h
    · cases h
    · split at h
      · exact run_yandex_hasKey _ _ _ h
      · split at h
        · exact run_gis_hasKey _ _ _ h
        · cases h

/-- C8: `execute_job` is total over every Executor behavior — scraper
success, scraper-reported error dict, raised `CaptchaRequired`, raised
exception, unknown operation or missing job fields — and always returns a
dict carrying a `status` field; when `run_job` raises (modelled as
`Except.error`), the exception is normalized to a terminal failed dict
whose `error_message` is the exception text prefixed with
`"Unhandled exception in worker: "`, so nothing propagates to the caller. -/
theorem C8_execute_job_total (y : YandexScraper) (g : GisScraper)
    (jd : JobData) :
    pyHasKey (execute_job y g jd) "status" = true ∧
    (∀ msg, run_job y g jd = Except.error msg →
      execute_job y g jd = failedWorkerDict msg ∧
      pyGet (execute_job y g jd) "error_message"
        = .str ("Unhandled exception in worker: " ++ msg) ∧
      pyGet (execute_job y g jd) "status" = .str "failed") := by
  constructor
  · cases hr : run_job y g jd with
    | error e => simp [execute_job, hr, failedWorkerDict, pyHasKey]
    | ok v =>
        simp only [execute_job, hr]
        split
        · simp [failedWorkerDict, pyHasKey]
        · exact run_job_hasKey y g jd v hr
  · intro msg hmsg
    refine ⟨by simp [execute_job, hmsg], ?_, ?_⟩
    · simp [execute_job, hmsg, failedWorkerDict, pyGet, List.lookup]
    · simp [execute_job, hmsg, failedWorkerDict, pyGet, List.lookup]

/-- Witness for `C8_execute_job_total`: with empty job data, `run_job`
raises for the missing `scraper_type`, and `execute_job` normalizes that to
a failed dict. -/
theorem C8_execute_job_total_witness :
    pyHasKey (execute_job yScrEmpty gScrEmpty []) "status" = true ∧
    execute_job yScrEmpty gScrEmpty []
      = failedWorkerDict
          "Job data must contain 'scraper_type' (inferred from queue)" := by
  refine ⟨(C8_execute_job_total yScrEmpty gScrEmpty []).1, ?_⟩
  exact (((C8_execute_job_total yScrEmpty gScrEmpty []).2 _ rfl)).1

/-! ## Claim C10 -/

/-- C10: for every job claimed from the default queue `jobs:queue` or from
any queue whose name ends in `:default`, the worker loop's inference forces
`scraper_type = "gis"`, regardless of the record's stored `scraper_type`
(the inferred scraper never depends on the job data at all).  Conversely,
the inference yields `"yandex"` only for a non-default queue whose name
encodes it in its segments; and `run_job` dispatches to the Yandex executor
only when the (overwritten) `scraper_type` is `"yandex"` — with any other
value, the result is independent of the Yandex scraper entirely, so the
Yandex executor is unreachable. -/
theorem C10_queue_name_dispatch :
    (∀ q jd, (q = "jobs:queue" ∨ pyEndsWith q ":default" = true) →
      (inferScraperOp q jd).1 = "gis") ∧
    (∀ q jd jd', (inferScraperOp q jd).1 = (inferScraperOp q jd').1) ∧
    (∀ q jd, (inferScraperOp q jd).1 = "yandex" →
      q ≠ "jobs:queue" ∧ pyEndsWith q ":default" = false ∧
        ((4 ≤ (pySplit q ':').length ∧ (pySplit q ':').getD 2 "" = "yandex")
          ∨ ((pySplit q ':').length < 4
              ∧ (pySplit q ':').getLastD "" = "yandex"))) ∧
    (∀ y y' g jd, jdGet jd "scraper_type" ≠ some "yandex" →
      run_job y g jd = run_job y' g jd) := by
  refine ⟨?_, ?_, ?_, ?_⟩
  · intro q jd hq
    rcases hq with hq | hq
    · simp [inferScraperOp, hq]
    · simp [inferScraperOp, hq]
  · intro q jd jd'
    unfold inferScraperOp
    split
    · rfl
    · simp only []
      by_cases hl : (pySplit q ':').length ≥ 4 <;> simp [hl]
  · intro q jd h
    by_cases hc : (q == "jobs:queue" || pyEndsWith q ":default") = true
    · rw [inferScraperOp, if_pos hc] at h
      simp at h
    · rw [inferScraperOp, if_neg hc] at h
      simp only [Bool.or_eq_true, not_or] at hc
      obtain ⟨hq1, hq2⟩ := hc
      have hq2' : pyEndsWith q ":default" = false := by
        cases hb : pyEndsWith q ":default" with
        | false => rfl
        | true => exact absurd hb hq2
      refine ⟨by simpa using hq1, hq2', ?_⟩
      simp only [] at h
      by_cases hl : (pySplit q ':').length ≥ 4
      · rw [if_pos hl] at h
        exact Or.inl ⟨hl, by simpa using h⟩
      · rw [if_neg hl] at h
        exact Or.inr ⟨by omega, by simpa using h⟩
  · intro y y' g jd hy
    unfold run_job
    by_cases h1 : optFalsy (jdGet jd "scraper_type") = true
    · simp [h1]
    · by_cases h2 : optFalsy (jdGet jd "operation_type") = true
      · simp [h1, h2]
      · have hne : ((jdGet jd "scraper_type").getD "" == "yandex") = false := by
          cases hjt : jdGet jd "scraper_type" with
          | none => rw [hjt] at h1; simp [optFalsy] at h1
          | some st =>
              have hst : st ≠ "yandex" := by
                intro he
                exact hy (by rw [hjt, he])
              simpa using hst
        simp [h1, h2, hne]

/-- Witness for `C10_queue_name_dispatch` at concrete inputs: the default
queue and a `:default`-suffixed queue force `gis` even when the record says
`yandex`; `jobs:queue:yandex:statistics` encodes `yandex` in its segments;
and swapping the Yandex scraper does not change `run_job` on a `gis` job. -/
theorem C10_queue_name_dispatch_witness :
    (inferScraperOp "jobs:queue" [("scraper_type", "yandex")]).1 = "gis" ∧
    (inferScraperOp "jobs:queue:custom:default"
      [("scraper_type", "yandex")]).1 = "gis" ∧
    ("jobs:queue:yandex:statistics" ≠ "jobs:queue" ∧
      pyEndsWith "jobs:queue:yandex:statistics" ":default" = false ∧
      ((4 ≤ (pySplit "jobs:queue:yandex:statistics" ':').length ∧
          (pySplit "jobs:queue:yandex:statistics" ':').getD 2 "" = "yandex")
        ∨ ((pySplit "jobs:queue:yandex:statistics" ':').length < 4 ∧
            (pySplit "jobs:queue:yandex:statistics" ':').getLastD ""
              = "yandex"))) ∧
    run_job yScrCaptcha gScrEmpty
        [("scraper_type", "gis"), ("operation_type", "reviews")]
      = run_job yScrEmpty gScrEmpty
        [("scraper_type", "gis"), ("operation_type", "reviews")] := by
  refine ⟨C10_queue_name_dispatch.1 _ _ (Or.inl rfl),
    C10_queue_name_dispatch.1 _ _ (Or.inr (by decide)),
    C10_queue_name_dispatch.2.2.1 _ [] (by decide),
    C10_queue_name_dispatch.2.2.2 _ _ _ _ (by decide)⟩

/-! ## Claim C2 -/

/-- Two-key replacement: if `s'` agrees with `s` outside `{a, b}` for two
distinct keys of a duplicate-free key set, total counts differ exactly by
the differences at `a` and `b`. -/
theorem countAcross_two_keys (K : List String) (hnd : K.Nodup)
    (s s' : RedisState) (a b : String) (ha : a ∈ K) (hb : b ∈ K)
    (hab : a ≠ b) (j : String)
    (hoff : ∀ k, k ≠ a → k ≠ b → s'.lists k = s.lists k) :
    countAcross K s' j + (s.lists a).count j + (s.lists b).count j
      = countAcross K s j + (s'.lists a).count j + (s'.lists b).count j := by
  have h1 := countAcross_upd K hnd s.lists s.hashes s.sets a ha
    (s'.lists a) j
  have h2 := countAcross_upd K hnd (upd s.lists a (s'.lists a)) s.hashes
    s.sets b hb (s'.lists b) j
  have hsa : countAcross K ⟨s.lists, s.hashes, s.sets⟩ j
      = countAcross K s j :=
    countAcross_congr _ _ _ _ (fun _ _ => rfl)
  have hmid : (upd s.lists a (s'.lists a)) b = s.lists b :=
    upd_other _ _ _ _ (fun h => hab h.symm)
  have hfin : countAcross K
      ⟨upd (upd s.lists a (s'.lists a)) b (s'.lists b), s.hashes, s.sets⟩ j
      = countAcross K s' j := by
    refine countAcross_congr _ _ _ _ (fun k _ => ?_)
    show upd (upd s.lists a (s'.lists a)) b (s'.lists b) k = s'.lists k
    by_cases hkb : k = b
    · subst hkb
      rw [upd_same]
    · rw [upd_other _ _ _ _ hkb]
      by_cases hka : k = a
      · subst hka
        rw [upd_same]
      · rw [upd_other _ _ _ _ hka, hoff k hka hkb]
  rw [hmid] at h2
  omega

/-- Each `RPOPLPUSH` move of the recovery loop transfers one occurrence
between the ledger and the pending queue, so — however early Python's
truthiness condition stops the loop — the total count over a key set
containing both keys is preserved exactly. -/
theorem recoverN_countAcross (K : List String) (hnd : K.Nodup)
    (pqk : String) (hpk : pqk ∈ K) (hq : "jobs:queue" ∈ K)
    (hne : pqk ≠ "jobs:queue") (j : String) :
    ∀ n (s : RedisState),
      countAcross K (recoverN n pqk s).1 j = countAcross K s j := by
  intro n
  induction n with
  | zero => intro s; rfl
  | succ m ih =>
      intro s
      unfold recoverN
      cases hl : (s.lists pqk).getLast? with
      | none =>
          have hnone : rpoplpush pqk "jobs:queue" s = (Option.none, s) := by
            unfold rpoplpush
            rw [hl]
          rw [hnone]
      | some j0 =>
          rw [rpoplpush_eq_some pqk "jobs:queue" s j0 hl]
          simp only []
          have hqp : "jobs:queue" ≠ pqk := fun h => hne h.symm
          set s1 : RedisState :=
            { s with
              lists :=
                upd (upd s.lists pqk (s.lists pqk).dropLast) "jobs:queue"
                  (j0 :: upd s.lists pqk (s.lists pqk).dropLast "jobs:queue") }
            with hs1
          have hs1pqk : s1.lists pqk = (s.lists pqk).dropLast := by
            rw [hs1]; simp only []
            rw [upd_other _ _ _ _ hne, upd_same]
          have hs1q : s1.lists "jobs:queue" = j0 :: s.lists "jobs:queue" := by
            rw [hs1]; simp only []
            rw [upd_same, upd_other _ _ _ _ hqp]
          have hs1o : ∀ k, k ≠ pqk → k ≠ "jobs:queue" →
              s1.lists k = s.lists k := by
            intro k hk1 hk2
            rw [hs1]; simp only []
            rw [upd_other _ _ _ _ hk2, upd_other _ _ _ _ hk1]
          have heq := eq_dropLast_append_of_getLast? hl
          have hcp : (s.lists pqk).count j
              = ((s.lists pqk).dropLast).count j + ([j0].count j) := by
            conv_lhs => rw [heq]
            rw [List.count_append]
          have hcq : (s1.lists "jobs:queue").count j
              = (s.lists "jobs:queue").count j + ([j0].count j) := by
            rw [hs1q]
            simp [List.count_cons]
          have htwo := countAcross_two_keys K hnd s s1 pqk "jobs:queue"
            hpk hq hne j hs1o
          rw [hs1pqk, hcq] at htwo
          have hstep : countAcross K s1 j = countAcross K s j := by omega
          by_cases hj0 : j0 = ""
          · rw [if_pos hj0]
            exact hstep
          · rw [if_neg hj0]
            simp only []
            rw [ih s1, hstep]

/-- C2: every storage operation of the protocol preserves the exclusivity
invariant "job ID `j` occurs at most once across the pending queues and the
per-worker processing ledgers" (the keys collected in `K`):
(a) the worker's claim — including its intermediate state between the
atomic pop and the ledger push; (b) the commit (terminal record write
followed by ledger `LREM`); (c) the dead-letter handler (the sink is not a
pending queue or ledger), in both its success and failure outcomes; and
(d) startup recovery, which preserves the total count exactly. -/
theorem C2_exclusive_ownership (K : List String) (j : String)
    (hnd : K.Nodup) :
    (∀ allowed wid s, allowed ⊆ K → processingKey wid ∈ K →
      countAcross K s j ≤ 1 →
      countAcross K (brpop allowed s).2 j ≤ 1 ∧
      countAcross K (worker_claim allowed wid s).2 j ≤ 1) ∧
    (∀ wid jobId payload s, countAcross K s j ≤ 1 →
      countAcross K (commit_job wid jobId payload s).1 j ≤ 1) ∧
    (∀ wid jobId err now ok s, "jobs:dead-letter" ∉ K →
      countAcross K s j ≤ 1 →
      countAcross K (dead_letter_handle wid jobId err now ok s) j ≤ 1) ∧
    (∀ wid s, processingKey wid ∈ K → "jobs:queue" ∈ K →
      countAcross K s j ≤ 1 →
      countAcross K (recover_interrupted_jobs wid s).1 j
        = countAcross K s j) := by
  refine ⟨?_, ?_, ?_, ?_⟩
  · intro allowed wid s hsub hpk hle
    rcases hres : brpop allowed s with ⟨r, s1⟩
    cases r with
    | none =>
        have hs1 : s1 = s := by
          have h0 := brpop_none allowed s (by rw [hres])
          rw [hres] at h0
          exact h0
        constructor
        · show countAcross K s1 j ≤ 1
          rw [hs1]; exact hle
        · unfold worker_claim
          rw [hres]
          show countAcross K s1 j ≤ 1
          rw [hs1]; exact hle
    | some p =>
        obtain ⟨q, j0⟩ := p
        obtain ⟨hqmem, hlast, hs1⟩ := brpop_some allowed s q j0 s1 hres
        have hs1lists : s1.lists = upd s.lists q (s.lists q).dropLast := by
          rw [hs1]
        have hmono1 : countAcross K s1 j ≤ countAcross K s j := by
          refine countAcross_mono K s s1 j (fun k _ => ?_)
          rw [hs1lists]
          by_cases hk : k = q
          · subst hk
            rw [upd_same]
            exact (List.dropLast_sublist _).count_le j
          · rw [upd_other _ _ _ _ hk]
        have hint : countAcross K s1 j ≤ 1 := le_trans hmono1 hle
        refine ⟨hint, ?_⟩
        unfold worker_claim
        rw [hres]
        show countAcross K (lpush (processingKey wid) j0 s1) j ≤ 1
        have hs2lists : (lpush (processingKey wid) j0 s1).lists
            = upd s1.lists (processingKey wid)
                (j0 :: s1.lists (processingKey wid)) := rfl
        by_cases hj : j = j0
        · subst hj
          have hqge : 1 ≤ (s.lists q).count j := by
            have hdc := count_of_getLast? hlast
            omega
          have hqK : q ∈ K := hsub hqmem
          have hup := countAcross_upd K hnd s.lists s.hashes s.sets q hqK
            (s.lists q).dropLast j
          have hs1' : countAcross K s1 j
              = countAcross K
                  ⟨upd s.lists q (s.lists q).dropLast, s.hashes, s.sets⟩ j :=
            countAcross_congr _ _ _ _ (fun k _ => by rw [hs1lists])
          have hsa : countAcross K ⟨s.lists, s.hashes, s.sets⟩ j
              = countAcross K s j :=
            countAcross_congr _ _ _ _ (fun _ _ => rfl)
          have hdropc := count_of_getLast? hlast
          have hup2 := countAcross_upd K hnd s1.lists s1.hashes s1.sets
            (processingKey wid) hpk (j :: s1.lists (processingKey wid)) j
          have hs2' : countAcross K (lpush (processingKey wid) j s1) j
              = countAcross K
                  ⟨upd s1.lists (processingKey wid)
                    (j :: s1.lists (processingKey wid)),
                   s1.hashes, s1.sets⟩ j :=
            countAcross_congr _ _ _ _ (fun k _ => by rw [hs2lists])
          have hsb : countAcross K ⟨s1.lists, s1.hashes, s1.sets⟩ j
              = countAcross K s1 j :=
            countAcross_congr _ _ _ _ (fun _ _ => rfl)
          have hcons : (j :: s1.lists (processingKey wid)).count j
              = (s1.lists (processingKey wid)).count j + 1 := by
            simp [List.count_cons]
          omega
        · have hle2 : countAcross K (lpush (processingKey wid) j0 s1) j
              ≤ countAcross K s1 j := by
            refine countAcross_mono K s1 _ j (fun k _ => ?_)
            rw [hs2lists]
            by_cases hk : k = processingKey wid
            · subst hk
              rw [upd_same]
              simp [List.count_cons, hj]
            · rw [upd_other _ _ _ _ hk]
          omega
  · intro wid jobId payload s hle
    unfold commit_job
    cases hE : hsetTry (jobKey jobId) payload s with
    | none => exact hle
    | some s1 =>
        have hs1lists : s1.lists = s.lists := by
          unfold hsetTry at hE
          cases hEf : encodeFields payload with
          | none => rw [hEf] at hE; cases hE
          | some fs =>
              rw [hEf] at hE
              have hE2 : some (hsetVals (jobKey jobId) fs s) = some s1 := hE
              injection hE2 with hE2
              rw [← hE2]
              rfl
        show countAcross K (lrem (processingKey wid) jobId s1) j ≤ 1
        have hmono : countAcross K (lrem (processingKey wid) jobId s1) j
            ≤ countAcross K s1 j := by
          refine countAcross_mono K s1 _ j (fun k _ => ?_)
          show ((lrem (processingKey wid) jobId s1).lists k).count j
            ≤ (s1.lists k).count j
          simp only [lrem]
          by_cases hk : k = processingKey wid
          · subst hk
            rw [upd_same]
            exact lremFirst_count_le _ _ _
          · rw [upd_other _ _ _ _ hk]
        have hcg : countAcross K s1 j = countAcross K s j :=
          countAcross_congr _ _ _ _ (fun k _ => by rw [hs1lists])
        omega
  · intro wid jobId err now ok s hdlq hle
    cases ok with
    | false => exact hle
    | true =>
        show countAcross K
          (lrem (processingKey wid) jobId
            (dead_letter_pipeline jobId err now s)) j ≤ 1
        have hpipe : countAcross K (dead_letter_pipeline jobId err now s) j
            = countAcross K s j := by
          refine countAcross_congr _ _ _ _ (fun k hk => ?_)
          show (dead_letter_pipeline jobId err now s).lists k = s.lists k
          simp only [dead_letter_pipeline, lpush, hsetVals]
          exact upd_other _ _ _ _ (fun h => hdlq (h ▸ hk))
        have hmono : countAcross K
            (lrem (processingKey wid) jobId
              (dead_letter_pipeline jobId err now s)) j
            ≤ countAcross K (dead_letter_pipeline jobId err now s) j := by
          refine countAcross_mono K _ _ j (fun k _ => ?_)
          simp only [lrem]
          by_cases hk : k = processingKey wid
          · subst hk
            show (upd (dead_letter_pipeline jobId err now s).lists
              (processingKey wid) _ (processingKey wid)).count j ≤ _
            rw [upd_same]
            exact lremFirst_count_le _ _ _
          · show (upd (dead_letter_pipeline jobId err now s).lists
              (processingKey wid) _ k).count j ≤ _
            rw [upd_other _ _ _ _ hk]
        omega
  · intro wid s hpk hq hle
    unfold recover_interrupted_jobs
    exact recoverN_countAcross K hnd (processingKey wid) hpk hq
      (processingKey_ne_queue wid) j _ s

/-- A state in which worker `w1`'s processing ledger holds exactly `j1`. -/
def exLedgerState : RedisState :=
  { emptyState with
    lists := upd emptyState.lists (processingKey "w1") ["j1"] }

/-- Witness for `C2_exclusive_ownership` over the key set
`[jobs:queue, jobs:processing:w1]` and job ID `j1`, exercising all four
operations at concrete states that satisfy the invariant. -/
theorem C2_exclusive_ownership_witness :
    (countAcross ["jobs:queue", processingKey "w1"]
        (brpop ["jobs:queue"] (stateWithQueue ["j1"])).2 "j1" ≤ 1 ∧
      countAcross ["jobs:queue", processingKey "w1"]
        (worker_claim ["jobs:queue"] "w1" (stateWithQueue ["j1"])).2 "j1"
        ≤ 1) ∧
    countAcross ["jobs:queue", processingKey "w1"]
      (commit_job "w1" "j1" [("status", some "failed")] exLedgerState).1
      "j1" ≤ 1 ∧
    countAcross ["jobs:queue", processingKey "w1"]
      (dead_letter_handle "w1" "j1" "boom" "t0" true exLedgerState)
      "j1" ≤ 1 ∧
    countAcross ["jobs:queue", processingKey "w1"]
      (recover_interrupted_jobs "w1" exLedgerState).1 "j1"
      = countAcross ["jobs:queue", processingKey "w1"] exLedgerState "j1" := by
  have h := C2_exclusive_ownership ["jobs:queue", processingKey "w1"] "j1"
    (by decide)
  exact ⟨h.1 ["jobs:queue"] "w1" (stateWithQueue ["j1"]) (by decide)
      (by decide) (by decide),
    h.2.1 "w1" "j1" [("status", some "failed")] exLedgerState (by decide),
    h.2.2.1 "w1" "j1" "boom" "t0" true exLedgerState (by decide) (by decide),
    h.2.2.2 "w1" exLedgerState (by decide) (by decide) (by decide)⟩

/-! ## Claim C3 -/

/-- A state whose ledger for `w1` holds a normal ID `a` and, at the tail
(the side `RPOPLPUSH` pops first), an empty-string entry, which Python's
loop condition treats as falsy. -/
def c3TruncState : RedisState :=
  { emptyState with
    lists := upd emptyState.lists (processingKey "w1") ["a", ""] }

/-- C3 (counterexample): `worker.py` line 150 loops
`while (job_id := rpoplpush(...))`, and Python exits on any falsy value —
the empty string as well as `None`.  With ledger `["a", ""]` the code
moves the tail entry `""` onto the pending queue, the walrus condition is
then falsy, and the loop stops: `a` is never re-queued and the ledger does
not end empty — refuting both "until the ledger is empty" and "an ID
occurring once in the ledger is re-queued exactly once" as stated. -/
theorem C3_counterexample :
    (recover_interrupted_jobs "w1" c3TruncState).1.lists
      (processingKey "w1") = ["a"] ∧
    (recover_interrupted_jobs "w1" c3TruncState).1.lists "jobs:queue"
      = [""] ∧
    Ev.requeued "a" ∉ (recover_interrupted_jobs "w1" c3TruncState).2 := by
  refine ⟨by decide, by decide, by decide⟩

/-- C3 (amended): when the Recovery Procedure runs and every entry of the
worker's processing ledger is a truthy job ID (a non-empty string), every
ID is moved back onto the pending queue `jobs:queue` — one ID per atomic
`RPOPLPUSH` move, as the event trace records — until the ledger is empty;
an ID occurring once in the ledger is re-queued exactly once (counts add),
every other list is untouched, and no job record is read or written: the
procedure neither modifies the hashes nor does its effect on the lists
depend on them (it never inspects a job's status).  (With a falsy —
empty-string — entry, the loop stops right after moving that entry; see
`C3_counterexample`.) -/
theorem C3_amended (wid : String) (s : RedisState)
    (hids : ∀ x ∈ s.lists (processingKey wid), x ≠ "") :
    (recover_interrupted_jobs wid s).1.lists (processingKey wid) = [] ∧
    (recover_interrupted_jobs wid s).1.lists "jobs:queue"
      = s.lists (processingKey wid) ++ s.lists "jobs:queue" ∧
    (∀ j, ((recover_interrupted_jobs wid s).1.lists "jobs:queue").count j
      = (s.lists (processingKey wid)).count j
        + (s.lists "jobs:queue").count j) ∧
    (∀ k, k ≠ processingKey wid → k ≠ "jobs:queue" →
      (recover_interrupted_jobs wid s).1.lists k = s.lists k) ∧
    (recover_interrupted_jobs wid s).1.hashes = s.hashes ∧
    (recover_interrupted_jobs wid s).2
      = (s.lists (processingKey wid)).reverse.map Ev.requeued ∧
    (∀ hashes' : String → List (String × String),
      (recover_interrupted_jobs wid { s with hashes := hashes' }).1.lists
        = (recover_interrupted_jobs wid s).1.lists) := by
  have hne := processingKey_ne_queue wid
  unfold recover_interrupted_jobs
  obtain ⟨h1, h2, h3, h4, h5, h6⟩ :=
    recoverN_spec (s.lists (processingKey wid)).length (processingKey wid) s
      hne rfl hids
  refine ⟨h1, h2, ?_, h3, h4, h6, ?_⟩
  · intro j
    rw [h2, List.count_append]
  · intro hashes'
    obtain ⟨g1, g2, g3, g4, g5, g6⟩ :=
      recoverN_spec (s.lists (processingKey wid)).length (processingKey wid)
        { s with hashes := hashes' } hne rfl hids
    funext k
    by_cases hk1 : k = processingKey wid
    · subst hk1
      rw [g1, h1]
    · by_cases hk2 : k = "jobs:queue"
      · subst hk2
        rw [g2, h2]
      · rw [g3 k hk1 hk2, h3 k hk1 hk2]

/-- Witness for `C3_amended`: recovering a ledger holding the single
truthy ID `j1` empties the ledger and re-queues `j1`. -/
theorem C3_amended_witness :
    (recover_interrupted_jobs "w1" exLedgerState).1.lists
      (processingKey "w1") = [] ∧
    (recover_interrupted_jobs "w1" exLedgerState).1.lists "jobs:queue"
      = exLedgerState.lists (processingKey "w1")
        ++ exLedgerState.lists "jobs:queue" := by
  have h := C3_amended "w1" exLedgerState (by decide)
  exact ⟨h.1, h.2.1⟩

/-! ## Claim C9 -/

/-- All values written to the `status` field of the job record during one
pass, in write order (including the non-terminal pre-execution write). -/
def statusWrites (evs : List Ev) : List String :=
  evs.filterMap fun e =>
    match e with
    | .hsetRecord _ fields => fields.lookup "status"
    | _ => Option.none

/-- A concrete state: `j1` pending on the default queue with a `reviews`
job record. -/
def c9State : RedisState :=
  { emptyState with
    lists := upd emptyState.lists "jobs:queue" ["j1"],
    hashes := upd emptyState.hashes (jobKey "j1")
      [("status", "pending"), ("operation_type", "reviews")] }

/-- C9 (counterexample): the claim says the worker writes `status=running`
after the claim and before the Executor.  In a complete, successful
`worker.py` pass the statuses written to the record are `in_progress` and
then `completed` — the label `running` is never written (`worker.py` lines
248–253 write `in_progress`; only the simulated worker in `main.py` writes
`running`). -/
theorem C9_counterexample :
    statusWrites
      (main_loop_iteration yScrEmpty gScrNonEmpty "w1" "t0" c9State).2
      = ["in_progress", "completed"] ∧
    "running" ∉ statusWrites
      (main_loop_iteration yScrEmpty gScrNonEmpty "w1" "t0" c9State).2 := by
  refine ⟨by decide, by decide⟩

/-- C9 (amended): for every job that passes pre-execution validation (its
record exists and is not pre-cancelled or terminal), the worker writes
`status=in_progress` together with `worker_id` and `started_at` to the job
record immediately after the claim and before the Executor is invoked: the
event order of the pass is pop, ledger push, the `in_progress` record
write, the worker-set add, and only then the Executor call. -/
theorem C9_amended (y : YandexScraper) (g : GisScraper) (wid now : String)
    (s : RedisState) (q j : String) (s1 : RedisState)
    (hforb : (s.sets "forbidden:workers").contains wid = false)
    (hpop : brpop (get_allowed_queues wid s) s = (some (q, j), s1))
    (hdata : s.hashes (jobKey j) ≠ [])
    (hc : jdGet (s.hashes (jobKey j)) "status" ≠ some "cancelled")
    (hcm : jdGet (s.hashes (jobKey j)) "status" ≠ some "completed")
    (hf : jdGet (s.hashes (jobKey j)) "status" ≠ some "failed") :
    ∃ tail,
      (main_loop_iteration y g wid now s).2
        = [Ev.popped q j, Ev.pushedLedger j,
           Ev.hsetRecord j (inProgressFields wid now), Ev.saddWorkers wid,
           Ev.execCalled j
             (jdSetOpt
               (jdSet (s.hashes (jobKey j)) "scraper_type"
                 (inferScraperOp q (s.hashes (jobKey j))).1)
               "operation_type" (inferScraperOp q (s.hashes (jobKey j))).2)]
          ++ tail := by
  have hallow : (get_allowed_queues wid s).isEmpty = false := by
    cases hA : get_allowed_queues wid s with
    | nil => rw [hA] at hpop; simp [brpop] at hpop
    | cons a as => rfl
  have hhash : s1.hashes = s.hashes := by
    have hbh := brpop_hashes (get_allowed_queues wid s) s
    rw [hpop] at hbh
    exact hbh
  have hdataE : (s.hashes (jobKey j)).isEmpty = false := by
    cases hD : s.hashes (jobKey j) with
    | nil => exact absurd hD hdata
    | cons a as => rfl
  have hcb : (jdGet (s.hashes (jobKey j)) "status" == some "cancelled")
      = false := beq_eq_false_iff_ne.mpr hc
  have hcmb : (jdGet (s.hashes (jobKey j)) "status" == some "completed")
      = false := beq_eq_false_iff_ne.mpr hcm
  have hfb : (jdGet (s.hashes (jobKey j)) "status" == some "failed")
      = false := beq_eq_false_iff_ne.mpr hf
  simp only [main_loop_iteration, sismember, hforb, Bool.false_eq_true,
    if_false, hallow, hpop, lpush, hhash, hdataE, hcb, hcmb, hfb,
    Bool.or_self, Bool.or_false, Bool.false_or]
  split
  · exact ⟨[], by simp⟩
  · next fs hEnc =>
      exact ⟨_, rfl⟩

/-! ## Claim C5 -/

/-- Whether the Executor was invoked during a pass. -/
def hasExec (evs : List Ev) : Bool :=
  evs.any fun e =>
    match e with
    | .execCalled .. => true
    | _ => false

/-- A concrete state: `j1` pending on the default queue while its record
already carries the terminal status `warning`. -/
def c5State : RedisState :=
  { emptyState with
    lists := upd emptyState.lists "jobs:queue" ["j1"],
    hashes := upd emptyState.hashes (jobKey "j1")
      [("status", "warning"), ("operation_type", "reviews")] }

/-- C5 (counterexample): the claim treats `warning` as terminal, but the
stale-delivery guard in `worker.py` line 243 checks only
`["completed", "failed", "cancelled"]`.  Re-delivering a job whose stored
status is `warning` makes the worker invoke the Executor again and
overwrite the record (here to `completed`) — contradicting "removes the ID
… without invoking the Executor and without modifying the job record". -/
theorem C5_counterexample :
    hasExec
      (main_loop_iteration yScrEmpty gScrNonEmpty "w1" "t0" c5State).2
      = true ∧
    ((main_loop_iteration yScrEmpty gScrNonEmpty "w1" "t0" c5State).1.hashes
      (jobKey "j1")).lookup "status" = some "completed" := by
  refine ⟨by decide, by decide⟩

/-- C5 (amended): for a claimed job whose stored record exists, the
`worker.py` pre-execution checks behave as follows.  If the status is
`completed` or `failed`, the pass only pops the ID, pushes it to the
ledger and removes it again — no Executor call, no record write (the
hashes are untouched).  If the status is `cancelled`, the Executor is
likewise not invoked, but the record *is* finalized with the cancellation
fields.  A status of `warning` is not treated as terminal: the pass
proceeds to mark the job `in_progress` and invoke the Executor. -/
theorem C5_amended (y : YandexScraper) (g : GisScraper) (wid now : String)
    (s : RedisState) (q j : String) (s1 : RedisState)
    (hforb : (s.sets "forbidden:workers").contains wid = false)
    (hpop : brpop (get_allowed_queues wid s) s = (some (q, j), s1))
    (hdata : s.hashes (jobKey j) ≠ []) :
    ((jdGet (s.hashes (jobKey j)) "status" = some "completed" ∨
      jdGet (s.hashes (jobKey j)) "status" = some "failed") →
      (main_loop_iteration y g wid now s).2
        = [Ev.popped q j, Ev.pushedLedger j, Ev.removedLedger j] ∧
      (main_loop_iteration y g wid now s).1.hashes = s.hashes) ∧
    (jdGet (s.hashes (jobKey j)) "status" = some "cancelled" →
      (main_loop_iteration y g wid now s).2
        = [Ev.popped q j, Ev.pushedLedger j,
           Ev.hsetRecord j (cancelledFields wid now), Ev.removedLedger j] ∧
      ((main_loop_iteration y g wid now s).1.hashes (jobKey j)).lookup
        "status" = some "cancelled") ∧
    (jdGet (s.hashes (jobKey j)) "status" = some "warning" →
      ∃ jd2 tail,
        (main_loop_iteration y g wid now s).2
          = [Ev.popped q j, Ev.pushedLedger j,
             Ev.hsetRecord j (inProgressFields wid now),
             Ev.saddWorkers wid, Ev.execCalled j jd2] ++ tail) := by
  have hallow : (get_allowed_queues wid s).isEmpty = false := by
    cases hA : get_allowed_queues wid s with
    | nil => rw [hA] at hpop; simp [brpop] at hpop
    | cons a as => rfl
  have hhash : s1.hashes = s.hashes := by
    have hbh := brpop_hashes (get_allowed_queues wid s) s
    rw [hpop] at hbh
    exact hbh
  have hdataE : (s.hashes (jobKey j)).isEmpty = false := by
    cases hD : s.hashes (jobKey j) with
    | nil => exact absurd hD hdata
    | cons a as => rfl
  refine ⟨?_, ?_, ?_⟩
  · intro hst
    rcases hst with hst | hst
    · have h1 : (jdGet (s.hashes (jobKey j)) "status" == some "cancelled")
          = false := by rw [hst]; decide
      have h2 : (jdGet (s.hashes (jobKey j)) "status" == some "completed")
          = true := by rw [hst]; decide
      constructor <;>
        simp only [main_loop_iteration, sismember, hforb, Bool.false_eq_true,
          if_false, hallow, hpop, lpush, hhash, hdataE, h1, h2,
          Bool.true_or, Bool.false_or, Bool.or_false, Bool.or_true, if_true,
          lrem, List.cons_append, List.nil_append]
    · have h1 : (jdGet (s.hashes (jobKey j)) "status" == some "cancelled")
          = false := by rw [hst]; decide
      have h2 : (jdGet (s.hashes (jobKey j)) "status" == some "completed")
          = false := by rw [hst]; decide
      have h3 : (jdGet (s.hashes (jobKey j)) "status" == some "failed")
          = true := by rw [hst]; decide
      constructor <;>
        simp only [main_loop_iteration, sismember, hforb, Bool.false_eq_true,
          if_false, hallow, hpop, lpush, hhash, hdataE, h1, h2, h3,
          Bool.true_or, Bool.false_or, Bool.or_false, Bool.or_true, if_true,
          lrem, List.cons_append, List.nil_append]
  · intro hst
    have hstc : (jdGet (s.hashes (jobKey j)) "status" == some "cancelled")
        = true := by rw [hst]; decide
    have hlook : ∀ X : RedisState,
        ((hsetVals (jobKey j) (cancelledFields wid now) X).hashes
          (jobKey j)).lookup "status" = some "cancelled" := by
      intro X
      simp only [hsetVals, cancelledFields, List.foldl, upd_same]
      rw [lookup_hashSet_other _ _ _ _ (by decide),
        lookup_hashSet_other _ _ _ _ (by decide),
        lookup_hashSet_other _ _ _ _ (by decide),
        lookup_hashSet_other _ _ _ _ (by decide),
        lookup_hashSet_same]
    constructor
    · simp only [main_loop_iteration, sismember, hforb, Bool.false_eq_true,
        if_false, hallow, hpop, lpush, hhash, hdataE, hstc, if_true, lrem,
        List.cons_append, List.nil_append]
    · simp only [main_loop_iteration, sismember, hforb, Bool.false_eq_true,
        if_false, hallow, hpop, lpush, hhash, hdataE, hstc, if_true, lrem]
      exact hlook _
  · intro hst
    have hcb : (jdGet (s.hashes (jobKey j)) "status" == some "cancelled")
        = false := by rw [hst]; decide
    have hcmb : (jdGet (s.hashes (jobKey j)) "status" == some "completed")
        = false := by rw [hst]; decide
    have hfb : (jdGet (s.hashes (jobKey j)) "status" == some "failed")
        = false := by rw [hst]; decide
    simp only [main_loop_iteration, sismember, hforb, Bool.false_eq_true,
      if_false, hallow, hpop, lpush, hhash, hdataE, hcb, hcmb, hfb,
      Bool.or_self, Bool.or_false, Bool.false_or]
    split
    · exact ⟨_, _, rfl⟩
    · exact ⟨_, _, rfl⟩

/-- A concrete state: `j1` pending on the default queue while its record
already carries the terminal status `completed`. -/
def c5DoneState : RedisState :=
  { emptyState with
    lists := upd emptyState.lists "jobs:queue" ["j1"],
    hashes := upd emptyState.hashes (jobKey "j1") [("status", "completed")] }

/-- Witness for `C5_amended`: a re-delivered `completed` job is dropped
without an Executor call and without touching any record. -/
theorem C5_amended_witness :
    (main_loop_iteration yScrEmpty gScrEmpty "w1" "t0" c5DoneState).2
      = [Ev.popped "jobs:queue" "j1", Ev.pushedLedger "j1",
         Ev.removedLedger "j1"] ∧
    (main_loop_iteration yScrEmpty gScrEmpty "w1" "t0" c5DoneState).1.hashes
      = c5DoneState.hashes :=
  (C5_amended yScrEmpty gScrEmpty "w1" "t0" c5DoneState "jobs:queue" "j1"
    (brpop (get_allowed_queues "w1" c5DoneState) c5DoneState).2
    (by decide) rfl (by decide)).1 (Or.inl (by decide))

/-- Witness for `C9_amended`: a pending `reviews` job claimed from the
default queue is marked `in_progress` (with `worker_id` and `started_at`)
before the Executor call. -/
theorem C9_amended_witness :
    ∃ tail,
      (main_loop_iteration yScrEmpty gScrNonEmpty "w1" "t0" c9State).2
        = [Ev.popped "jobs:queue" "j1", Ev.pushedLedger "j1",
           Ev.hsetRecord "j1" (inProgressFields "w1" "t0"),
           Ev.saddWorkers "w1",
           Ev.execCalled "j1"
             (jdSetOpt
               (jdSet (c9State.hashes (jobKey "j1")) "scraper_type"
                 (inferScraperOp "jobs:queue"
                   (c9State.hashes (jobKey "j1"))).1)
               "operation_type"
               (inferScraperOp "jobs:queue"
                 (c9State.hashes (jobKey "j1"))).2)]
          ++ tail :=
  C9_amended yScrEmpty gScrNonEmpty "w1" "t0" c9State "jobs:queue" "j1"
    (brpop (get_allowed_queues "w1" c9State) c9State).2
    (by decide) rfl (by decide) (by decide) (by decide) (by decide)

/-! ## Claim C7 -/

/-- The terminal statuses written during a pass: the `status` values of
exactly those record writes that also set `completed_at` (the
pre-execution `in_progress` write sets no `completed_at`). -/
def terminalWrites (evs : List Ev) : List String :=
  evs.filterMap fun e =>
    match e with
    | .hsetRecord _ fields =>
        if (fields.lookup "completed_at").isSome then fields.lookup "status"
        else Option.none
    | _ => Option.none

theorem terminalWrites_nil : terminalWrites [] = [] := rfl

theorem terminalWrites_popped (q j : String) (l : List Ev) :
    terminalWrites (Ev.popped q j :: l) = terminalWrites l := by
  simp [terminalWrites]

theorem terminalWrites_pushedLedger (j : String) (l : List Ev) :
    terminalWrites (Ev.pushedLedger j :: l) = terminalWrites l := by
  simp [terminalWrites]

theorem terminalWrites_sadd (w : String) (l : List Ev) :
    terminalWrites (Ev.saddWorkers w :: l) = terminalWrites l := by
  simp [terminalWrites]

theorem terminalWrites_exec (j : String) (jd : JobData) (l : List Ev) :
    terminalWrites (Ev.execCalled j jd :: l) = terminalWrites l := by
  simp [terminalWrites]

theorem terminalWrites_removed (j : String) (l : List Ev) :
    terminalWrites (Ev.removedLedger j :: l) = terminalWrites l := by
  simp [terminalWrites]

theorem terminalWrites_requeued (j : String) (l : List Ev) :
    terminalWrites (Ev.requeued j :: l) = terminalWrites l := by
  simp [terminalWrites]

theorem terminalWrites_hset_none (j : String) (fields : List (String × String))
    (l : List Ev) (h : fields.lookup "completed_at" = Option.none) :
    terminalWrites (Ev.hsetRecord j fields :: l) = terminalWrites l := by
  simp [terminalWrites, h]

theorem terminalWrites_hset_some (j : String)
    (fields : List (String × String)) (l : List Ev) (f : String)
    (hc : (fields.lookup "completed_at").isSome = true)
    (hs : fields.lookup "status" = some f) :
    terminalWrites (Ev.hsetRecord j fields :: l) = f :: terminalWrites l := by
  simp [terminalWrites, hc, hs]

theorem terminalWrites_requeued_map (l : List String) :
    terminalWrites (l.map Ev.requeued) = [] := by
  induction l with
  | nil => rfl
  | cons a t ih => rw [List.map_cons, terminalWrites_requeued, ih]

/-- The recovery loop emits only `requeued` events (no record writes),
wherever Python's truthiness condition stops it. -/
theorem terminalWrites_recoverN (n : Nat) (pqk : String) (s : RedisState) :
    terminalWrites (recoverN n pqk s).2 = [] := by
  induction n generalizing s with
  | zero => rfl
  | succ m ih =>
      unfold recoverN
      cases hl : (s.lists pqk).getLast? with
      | none =>
          have hnone : rpoplpush pqk "jobs:queue" s = (Option.none, s) := by
            unfold rpoplpush
            rw [hl]
          rw [hnone]
          rfl
      | some j0 =>
          rw [rpoplpush_eq_some pqk "jobs:queue" s j0 hl]
          simp only []
          by_cases hj0 : j0 = ""
          · rw [if_pos hj0]
            rfl
          · rw [if_neg hj0]
            simp only []
            rw [terminalWrites_requeued]
            exact ih _

/-- The whole recovery pass contributes no terminal status write. -/
theorem terminalWrites_recover (wid : String) (X : RedisState) :
    terminalWrites (recover_interrupted_jobs wid X).2 = [] := by
  unfold recover_interrupted_jobs
  exact terminalWrites_recoverN _ _ _

theorem pyEqStr_true (v : PyVal) (t : String) (h : pyEqStr v t = true) :
    v = .str t := by
  cases v <;> simp [pyEqStr] at h
  rw [h]

/-- The status mapping of the worker loop only ever produces `completed`,
`warning`, `captcha_required` or `failed`. -/
theorem finalStatus_mem (i e : PyVal) :
    (finalStatusAndError i e).1
      ∈ ["completed", "warning", "captcha_required", "failed"] := by
  unfold finalStatusAndError
  split
  · simp
  · split
    · next hb =>
        simp only [Bool.or_eq_true] at hb
        rcases hb with (hb | hb) | hb <;>
          rw [pyEqStr_true _ _ hb] <;> simp [pyStr]
    · simp

/-- The status mapping lands in the five-status set of the amended C7. -/
theorem finalStatus_mem5 (i e : PyVal) :
    (finalStatusAndError i e).1
      ∈ ["completed", "failed", "cancelled", "warning", "captcha_required"]
    := by
  have hm := finalStatus_mem i e
  simp only [List.mem_cons, List.mem_singleton, List.not_mem_nil,
    or_false] at hm ⊢
  tauto

/-- A successful encode of the completion payload yields fields whose
`status` is the computed final status and which set `completed_at`. -/
theorem encode_completion (now f : String) (rd em : PyVal)
    (fs : List (String × String))
    (h : encodeFields (completionPayload now f rd em) = some fs) :
    fs.lookup "status" = some f ∧
    (fs.lookup "completed_at").isSome = true := by
  by_cases hrd : pyIsNone rd = true
  · simp [completionPayload, encodeFields, hrd] at h
  · simp only [completionPayload, hrd, Bool.false_eq_true, if_false,
      encodeFields, Option.map_eq_some'] at h
    obtain ⟨fs1, ⟨fs2, ⟨fs3, ⟨fs4, h4, h3⟩, h2⟩, h1⟩, h0⟩ := h
    injection h4 with h4
    subst h4
    subst h3
    subst h2
    subst h1
    subst h0
    refine ⟨?_, ?_⟩ <;> rfl

/-- A concrete state: `j1` pending on the named queue
`jobs:queue:yandex:statistics`, which is registered in `queues:all`. -/
def c7State : RedisState :=
  { emptyState with
    lists := upd emptyState.lists "jobs:queue:yandex:statistics" ["j1"],
    hashes := upd emptyState.hashes (jobKey "j1") [("status", "pending")],
    sets := upd emptyState.sets "queues:all" ["yandex:statistics"] }

/-- C7 (counterexample): a Yandex job whose scraper raises
`CaptchaRequired` ends the pass with the terminal status
`captcha_required` written to its record — a value outside
{completed, failed, cancelled, warning}, because the status mapping in
`worker.py` lines 276–281 passes `captcha_required` through to the final
record. -/
theorem C7_counterexample :
    terminalWrites
      (main_loop_iteration yScrCaptcha gScrEmpty "w1" "t0" c7State).2
      = ["captcha_required"] ∧
    "captcha_required" ∉ ["completed", "failed", "cancelled", "warning"] := by
  refine ⟨by decide, by decide⟩

/-- C7 (amended): every terminal status the worker loop writes at the end
of a pass (a record write that also sets `completed_at`) is one of
`completed`, `failed`, `cancelled`, `warning` or `captcha_required`; the
dead-letter handler writes only `failed` (see `C4_dead_letter_handler`).
The set is closed because the status mapping passes through only
`warning`, `captcha_required` and `failed`, maps `success` to `completed`
and everything else to `failed`, while the cancellation branch writes
`cancelled`. -/
theorem C7_amended (y : YandexScraper) (g : GisScraper) (wid now : String)
    (s : RedisState) (st : String)
    (h : st ∈ terminalWrites (main_loop_iteration y g wid now s).2) :
    st ∈ ["completed", "failed", "cancelled", "warning", "captcha_required"]
    := by
  simp only [main_loop_iteration] at h
  split at h
  · simp [terminalWrites] at h
  · split at h
    · simp [terminalWrites] at h
    · split at h
      · simp [terminalWrites] at h
      · split at h
        · simp only [List.cons_append, List.nil_append] at h
          rw [terminalWrites_popped, terminalWrites_pushedLedger,
            terminalWrites_removed, terminalWrites_nil] at h
          simp at h
        · split at h
          · simp only [List.cons_append, List.nil_append] at h
            rw [terminalWrites_popped, terminalWrites_pushedLedger,
              terminalWrites_hset_some _ _ _ "cancelled" (by rfl) (by rfl),
              terminalWrites_removed, terminalWrites_nil] at h
            simp at h
            simp [h]
          · split at h
            · simp only [List.cons_append, List.nil_append] at h
              rw [terminalWrites_popped, terminalWrites_pushedLedger,
                terminalWrites_removed, terminalWrites_nil] at h
              simp at h
            · split at h
              · simp only [List.cons_append, List.nil_append] at h
                rw [terminalWrites_popped, terminalWrites_pushedLedger,
                  terminalWrites_hset_none _ _ _ (by rfl),
                  terminalWrites_sadd, terminalWrites_exec,
                  terminalWrites_nil] at h
                simp at h
              · next fs hEnc =>
                  obtain ⟨hstat, hcomp⟩ := encode_completion _ _ _ _ _ hEnc
                  simp only [List.cons_append, List.nil_append] at h
                  rw [terminalWrites_popped, terminalWrites_pushedLedger,
                    terminalWrites_hset_none _ _ _ (by rfl),
                    terminalWrites_sadd, terminalWrites_exec,
                    terminalWrites_hset_some _ _ _ _ hcomp hstat,
                    terminalWrites_removed, terminalWrites_recover] at h
                  simp at h
                  rw [h]
                  exact finalStatus_mem5 _ _

/-- Witness for `C7_amended`: the captcha pass's terminal write is in the
five-status set. -/
theorem C7_amended_witness :
    "captcha_required"
      ∈ ["completed", "failed", "cancelled", "warning", "captcha_required"]
    := C7_amended yScrCaptcha gScrEmpty "w1" "t0" c7State "captcha_required"
      (by decide)
